import Mathlib

/-!
# APU core: the SpMV kernel and the CPU-utilisation sampler

A shallow embedding of `src/core/core.cpp`.

* C arrays are lists; a pointer read or write at an index outside the list is the
  failure value `none` (the C++ behaviour there is undefined).
* `int` and `long long` values are `Int`. The kernel's only integer arithmetic is
  `i + 1` and `++j` under a loop guard, which cannot overflow. The sampler adds and
  subtracts `long long` counters; these are the mathematical sums and differences, which
  is what the C++ computes whenever no signed overflow (undefined behaviour) occurs.
* `double` arithmetic is kept abstract in the SpMV kernel (any type with `0`, `+`
  and `*`, no algebraic law assumed, so the order of the additions is visible) and is
  exact rational arithmetic in the sampler.
* The process-wide statics `prev_stats` and `first_call` are an explicit state record;
  the contents of `/proc/stat` over time are a function from the number of reads made
  so far to the text found by that read.
-/

namespace APU

/-! ## SpMV kernel -/

section Spmv

variable {α : Type} [Zero α] [Add α] [Mul α]

/-- Pointer read `p[j]` for a C `int` index `j`: outside the buffer it is `none`. -/
def readAt {β : Type} (p : List β) (j : Int) : Option β :=
  if j < 0 then none else p[j.toNat]?

/-- Pointer write `p[j] = v` for a C `int` index `j`: outside the buffer it is `none`. -/
def writeAt {β : Type} (p : List β) (j : Int) (v : β) : Option (List β) :=
  if j < 0 then none
  else if j.toNat < p.length then some (p.set j.toNat v) else none

/-- The inner loop `for (int j = indptr[i]; j < indptr[i+1]; ++j) sum += data[j] * vector[indices[j]];`
of `spmv_csr_cpp`. The first argument is the number of iterations left, `indptr[i+1] - j`. -/
def spmv_inner (data : List α) (indices : List Int) (vector : List α) :
    Nat → Int → α → Option α
  | 0, _, sum => some sum
  | n + 1, j, sum => do
      let d ← readAt data j
      let c ← readAt indices j
      let x ← readAt vector c
      spmv_inner data indices vector n (j + 1) (sum + d * x)

/-- The outer loop `for (int i = 0; i < num_rows; ++i) { double sum = 0.0; ...; result[i] = sum; }`
of `spmv_csr_cpp`. The first argument is the number of iterations left, `num_rows - i`. -/
def spmv_outer (data : List α) (indices : List Int) (indptr : List Int) (vector : List α) :
    Nat → Int → List α → Option (List α)
  | 0, _, result => some result
  | n + 1, i, result => do
      let lo ← readAt indptr i
      let hi ← readAt indptr (i + 1)
      let sum ← spmv_inner data indices vector (hi - lo).toNat lo 0
      let result' ← writeAt result i sum
      spmv_outer data indices indptr vector n (i + 1) result'

/-- The call `spmv_csr_cpp(data, indices, indptr, vector, result, num_rows)`: the contents of the
`result` buffer after the call, or `none` when the call reads or writes out of bounds. -/
def spmv_csr_cpp (data : List α) (indices : List Int) (indptr : List Int) (vector : List α)
    (result : List α) (num_rows : Int) : Option (List α) :=
  spmv_outer data indices indptr vector num_rows.toNat 0 result

/-- The documented preconditions of a call on a CSR matrix with `num_cols` columns:
`num_rows ≥ 0`; `row_pointers` has `num_rows + 1` entries, is non-decreasing, starts at `0`
and ends at `nnz`; `values` and `column_indices` have `nnz` entries; every column index is
in `[0, num_cols)`; `vector` has at least `num_cols` and `result` at least `num_rows` entries. -/
def csr_pre (values : List α) (column_indices row_pointers : List Int) (vector result : List α)
    (num_rows num_cols : Int) : Prop :=
  0 ≤ num_rows ∧
  row_pointers.length = num_rows.toNat + 1 ∧
  row_pointers.Pairwise (fun a b => a ≤ b) ∧
  row_pointers[0]? = some 0 ∧
  row_pointers[num_rows.toNat]? = some (values.length : Int) ∧
  column_indices.length = values.length ∧
  (∀ c ∈ column_indices, 0 ≤ c ∧ c < num_cols) ∧
  (num_cols ≤ vector.length) ∧
  (num_rows ≤ result.length)

instance (values : List α) (column_indices row_pointers : List Int) (vector result : List α)
    (num_rows num_cols : Int) :
    Decidable (csr_pre values column_indices row_pointers vector result num_rows num_cols) := by
  unfold csr_pre
  infer_instance

/-- The product `values[j] * vector[column_indices[j]]` of the specification. -/
def csr_term (values : List α) (column_indices : List Int) (vector : List α) (j : Nat) : α :=
  values.getD j 0 * vector.getD (column_indices.getD j 0).toNat 0

/-- The sum of the specification for one row: start from `0` and add `csr_term j` for
`j = lo, lo + 1, ..., hi - 1` in that order. -/
def row_sum (values : List α) (column_indices : List Int) (vector : List α) (lo hi : Nat) : α :=
  (List.range' lo (hi - lo)).foldl (fun s j => s + csr_term values column_indices vector j) 0

/-- Row pointer `row_pointers[i]` of the specification, as a position in `values`. -/
def row_ptr (row_pointers : List Int) (i : Nat) : Nat :=
  (row_pointers.getD i 0).toNat

/-- The entry `A[i][c]` of the dense matrix that the CSR arrays encode: the sum of
`values[j]` over the entries `j` of row `i` with `column_indices[j] = c` (`0` without one). -/
def dense_entry (values : List α) (column_indices row_pointers : List Int) (i c : Nat) : α :=
  (((List.range' (row_ptr row_pointers i)
      (row_ptr row_pointers (i + 1) - row_ptr row_pointers i)).filter
        (fun j => decide (column_indices.getD j 0 = (c : Int)))).map
          (fun j => values.getD j 0)).sum

/-- Row `i` of the dense product `A * x`: the sum over `c` in `[0, num_cols)` of
`A[i][c] * x[c]`. -/
def dense_mul_row (values : List α) (column_indices row_pointers : List Int) (x : List α)
    (num_cols : Nat) (i : Nat) : α :=
  ((List.range num_cols).map
    (fun c => dense_entry values column_indices row_pointers i c * x.getD c 0)).sum

end Spmv

/-! ## CPU-utilisation sampler -/

/-- The `CpuStats` record: one row of cumulative kernel counters. -/
structure CpuStats where
  user : Int
  nice : Int
  system : Int
  idle : Int
  iowait : Int
  irq : Int
  softirq : Int
  steal : Int
  deriving DecidableEq, Repr

namespace CpuStats

/-- The default-initialised record `CpuStats s;` (every member `= 0`). -/
def zero : CpuStats := ⟨0, 0, 0, 0, 0, 0, 0, 0⟩

instance : Inhabited CpuStats := ⟨zero⟩

/-- The member function `get_idle_time`: the mathematical sum, which is the `long long`
value of the C++ whenever the addition does not overflow (see `CpuStats.sums_fit`). -/
def get_idle_time (s : CpuStats) : Int :=
  s.idle + s.iowait

/-- The member function `get_total_time`: the mathematical sum, which is the `long long`
value of the C++ whenever no addition overflows (see `CpuStats.sums_fit`). -/
def get_total_time (s : CpuStats) : Int :=
  s.user + s.nice + s.system + s.idle + s.iowait + s.irq + s.softirq + s.steal

end CpuStats

/-- What a C++ call can throw here. -/
inductive Exn where
  | out_of_range
  deriving DecidableEq, Repr

/-- The call `s.substr(pos, n)` of `std::string`: throws `std::out_of_range` when `pos > s.size()`. -/
def substr (s : List Char) (pos n : Nat) : Except Exn (List Char) :=
  if pos > s.length then .error .out_of_range else .ok ((s.drop pos).take n)

/-- The call `s.substr(pos)` of `std::string`: throws `std::out_of_range` when `pos > s.size()`. -/
def substr_from (s : List Char) (pos : Nat) : Except Exn (List Char) :=
  if pos > s.length then .error .out_of_range else .ok (s.drop pos)

/-- White space as the stream extraction skips it: `std::isspace` in the "C" locale. -/
def isspace (c : Char) : Bool :=
  c.toNat = 32 || (9 ≤ c.toNat && c.toNat ≤ 13)

/-- A decimal digit as the stream extraction accepts it. -/
def isdigit (c : Char) : Bool :=
  48 ≤ c.toNat && c.toNat ≤ 57

/-- The largest `long long`, `LLONG_MAX`. -/
def LLONG_MAX : Int := 9223372036854775807

/-- The smallest `long long`, `LLONG_MIN`. -/
def LLONG_MIN : Int := -9223372036854775808

/-- An input string stream: the unread characters and `good()`. -/
structure IStream where
  buf : List Char
  good : Bool
  deriving DecidableEq, Repr

/-- Value of a run of decimal digits. -/
def digits_value (ds : List Char) : Nat :=
  ds.foldl (fun acc c => 10 * acc + (c.toNat - 48)) 0

/-- The extraction `ss >> v` for `long long v`; gives the new `v` and the stream after it.
A stream that is not good leaves `v` alone; so does one with only white space left, which
then stops being good. Otherwise an optional sign and a run of digits are read: without a
digit `v` becomes `0` and the stream fails, a value out of range is clamped and the stream
fails, and a run of digits that reaches the end of the text sets end-of-file. -/
def extract_ll (ss : IStream) (v : Int) : Int × IStream :=
  if !ss.good then (v, ss)
  else
    let b := ss.buf.dropWhile isspace
    if b.isEmpty then (v, ⟨[], false⟩)
    else
      let signed : Bool × List Char :=
        match b with
        | '-' :: t => (true, t)
        | '+' :: t => (false, t)
        | _ => (false, b)
      let ds := signed.2.takeWhile isdigit
      let rest := signed.2.dropWhile isdigit
      if ds.isEmpty then (0, ⟨rest, false⟩)
      else
        let x : Int := if signed.1 then -(digits_value ds : Int) else (digits_value ds : Int)
        if x > LLONG_MAX then (LLONG_MAX, ⟨rest, false⟩)
        else if x < LLONG_MIN then (LLONG_MIN, ⟨rest, false⟩)
        else (x, ⟨rest, !rest.isEmpty⟩)

/-- The lines that repeated `std::getline(stat_file, line)` yields until it fails;
the second argument is the line read so far. -/
def getlines : List Char → List Char → List (List Char)
  | [], cur => if cur.isEmpty then [] else [cur]
  | c :: t, cur => if c = '\n' then cur :: getlines t [] else getlines t (cur ++ [c])

/-- The statement `ss >> s.user >> s.nice >> ... >> s.steal` on a fresh `CpuStats s`. -/
def extract_stats (ss : IStream) : CpuStats :=
  let s := CpuStats.zero
  let r1 := extract_ll ss s.user
  let r2 := extract_ll r1.2 s.nice
  let r3 := extract_ll r2.2 s.system
  let r4 := extract_ll r3.2 s.idle
  let r5 := extract_ll r4.2 s.iowait
  let r6 := extract_ll r5.2 s.irq
  let r7 := extract_ll r6.2 s.softirq
  let r8 := extract_ll r7.2 s.steal
  ⟨r1.1, r2.1, r3.1, r4.1, r5.1, r6.1, r7.1, r8.1⟩

/-- The `while (std::getline(stat_file, line))` loop of `read_cpu_stats` over the lines
still to come, with the vector `stats` built so far. -/
def read_loop : List (List Char) → List CpuStats → Except Exn (List CpuStats)
  | [], stats => .ok stats
  | line :: rest, stats => do
      let pre ← substr line 0 3
      if pre = ['c', 'p', 'u'] then
        let body ← substr_from line 5
        read_loop rest (stats ++ [extract_stats ⟨body, true⟩])
      else
        read_loop rest stats

/-- The function `read_cpu_stats()`, given the text that `/proc/stat` holds when it is opened
(the empty text when it cannot be opened). -/
def read_cpu_stats (text : String) : Except Exn (List CpuStats) :=
  read_loop (getlines text.toList []) []

/-- The contents of `/proc/stat` over time: the text found by the `k`-th read. -/
abbrev ProcStat := Nat → String

/-- The statics of the sampler, and the number of reads of `/proc/stat` made so far. -/
structure State where
  prev_stats : List CpuStats
  first_call : Bool
  reads : Nat
  deriving DecidableEq, Repr

/-- The state at process start: `prev_stats` empty, `first_call = true`. -/
def State.init : State := ⟨[], true, 0⟩

/-- What is written to the output: literal text, or a `double` put through `operator<<`. -/
inductive Piece where
  | text (s : String)
  | number (x : ℚ)
  deriving DecidableEq, Repr

/-- The usage computation done for row 0 (lines 74-81) and for each core (lines 88-95):
`(total_delta > 0) ? (1.0 - idle_delta / total_delta) * 100.0 : 0.0`. -/
def usage (prev cur : CpuStats) : ℚ :=
  let prev_idle := prev.get_idle_time
  let idle := cur.get_idle_time
  let prev_total := prev.get_total_time
  let total := cur.get_total_time
  let total_delta : ℚ := ((total - prev_total : Int) : ℚ)
  let idle_delta : ℚ := ((idle - prev_idle : Int) : ℚ)
  if total_delta > 0 then (1 - idle_delta / total_delta) * 100 else 0

/-- The loop `for (size_t i = 1; i < current_stats.size(); ++i)` writing the per-core
usages. The first argument is the number of iterations left. -/
def core_loop (prev_stats current_stats : List CpuStats) :
    Nat → Nat → List Piece → List Piece
  | 0, _, json_ss => json_ss
  | n + 1, i, json_ss =>
      let core_usage := usage (prev_stats.getD i default) (current_stats.getD i default)
      core_loop prev_stats current_stats n (i + 1)
        (json_ss ++ [.number core_usage,
          .text (if i = current_stats.length - 1 then "" else ",")])

/-- The text returned on a failed or mismatched read. -/
def error_json : List Piece := [.text "\x7b\"error\": \"Reading CPU stats\"\x7d"]

/-- Lines 70-100 of `get_cpu_usage_json`: everything written to `json_ss`. -/
def usage_report (prev_stats current_stats : List CpuStats) : List Piece :=
  let total_usage := usage (prev_stats.getD 0 default) (current_stats.getD 0 default)
  let json_ss : List Piece :=
    [.text "\x7b", .text "\"total_usage\": ", .number total_usage, .text ",",
      .text "\"per_core_usage\": ["]
  let json_ss := core_loop prev_stats current_stats (current_stats.length - 1) 1 json_ss
  json_ss ++ [.text "]\x7d"]

/-- Lines 65-109 of `get_cpu_usage_json`, the returned text: the error text when a snapshot
is empty or the sizes differ, the usage report otherwise. -/
def compare_and_report (prev_stats current_stats : List CpuStats) : List Piece :=
  if prev_stats.isEmpty || current_stats.isEmpty
      || prev_stats.length != current_stats.length then
    error_json
  else
    usage_report prev_stats current_stats

/-- The function `get_cpu_usage_json()`: the pieces of the returned text and the state after the call,
or the exception that escapes. Both exits store `prev_stats = current_stats`. The 100 ms
sleep of the first call is not modelled. -/
def get_cpu_usage_json (proc_stat : ProcStat) (st : State) : Except Exn (List Piece × State) := do
  let first ← read_cpu_stats (proc_stat st.reads)
  let st1 : State := { st with reads := st.reads + 1 }
  let (current_stats, st2) ←
    (if st1.first_call then do
      let again ← read_cpu_stats (proc_stat st1.reads)
      pure (again, ({ prev_stats := first, first_call := false, reads := st1.reads + 1 } : State))
    else
      pure (first, st1) : Except Exn (List CpuStats × State))
  pure (compare_and_report st2.prev_stats current_stats, { st2 with prev_stats := current_stats })

/-- The state after `n` successive calls of `get_cpu_usage_json`. -/
def run_calls (proc_stat : ProcStat) : Nat → State → Except Exn State
  | 0, st => .ok st
  | n + 1, st => do
      let r ← get_cpu_usage_json proc_stat st
      run_calls proc_stat n r.2

/-- The numbers written to the output, in the order written. -/
def numbers : List Piece → List ℚ
  | [] => []
  | .text _ :: ps => numbers ps
  | .number x :: ps => x :: numbers ps

/-- Reading a returned text back: when it has the layout of a usage report this is the
number after `"total_usage": ` and the numbers between `"per_core_usage": [` and the closing
`]` with the brace; otherwise (the error text among others) it is `none`. -/
def report_fields : List Piece → Option (ℚ × List ℚ)
  | .text a :: .text b :: .number t :: .text c :: .text d :: rest =>
      if a = "\x7b" ∧ b = "\"total_usage\": " ∧ c = "," ∧ d = "\"per_core_usage\": [" ∧
          rest.getLast? = some (.text "]\x7d") then
        some (t, numbers rest.dropLast)
      else none
  | _ => none

/-- The usage of row `r` between two snapshots. -/
def row_usage (prev cur : List CpuStats) (r : Nat) : ℚ :=
  usage (prev.getD r default) (cur.getD r default)

/-- The per-core usages of the specification: rows `1, ..., N` in row order, where
`N + 1` is the row count of the current snapshot. -/
def core_usages (prev cur : List CpuStats) : List ℚ :=
  (List.range (cur.length - 1)).map (fun k => row_usage prev cur (k + 1))

/-- The percentage of the specification for one row, in exact arithmetic:
`total_delta = current.total_time - previous.total_time`,
`idle_delta = current.idle_time - previous.idle_time`, with `idle_time = idle + iowait` and
`total_time` the sum of all eight counters, and
`usage_pct = total_delta > 0 ? (1 - idle_delta / total_delta) * 100 : 0`. -/
def spec_usage_pct (previous current : CpuStats) : ℚ :=
  let total_time : CpuStats → ℚ := fun s =>
    s.user + s.nice + s.system + s.idle + s.iowait + s.irq + s.softirq + s.steal
  let idle_time : CpuStats → ℚ := fun s => s.idle + s.iowait
  let total_delta := total_time current - total_time previous
  let idle_delta := idle_time current - idle_time previous
  if total_delta > 0 then (1 - idle_delta / total_delta) * 100 else 0

/-- The two snapshots that a call made in state `st` compares. Either a baseline is stored,
it is `base`, and the call's read gives `cur`; or it is the first call, whose first read
gives `base` and whose second read gives `cur`. -/
def Compares (src : ProcStat) (st : State) (base cur : List CpuStats) : Prop :=
  (st.first_call = false ∧ st.prev_stats = base ∧ read_cpu_stats (src st.reads) = .ok cur) ∨
  (st.first_call = true ∧ read_cpu_stats (src st.reads) = .ok base ∧
    read_cpu_stats (src (st.reads + 1)) = .ok cur)

/-- The number of reads a call made in state `st` makes. -/
def reads_of_call (st : State) : Nat :=
  if st.first_call then 2 else 1

/-- The text that the pieces of an output spell, given the rendering `fmt` that
`operator<<` applies to a `double`. -/
def render_text (fmt : ℚ → String) : List Piece → String
  | [] => ""
  | .text s :: ps => s ++ render_text fmt ps
  | .number x :: ps => fmt x ++ render_text fmt ps

/-- The elements of an array written one after the other with exactly one comma between
consecutive elements and none after the last; no element gives the empty text. -/
def comma_separated : List String → String
  | [] => ""
  | [s] => s
  | s :: t :: ts => s ++ "," ++ comma_separated (t :: ts)

/-- The literal texts of a usage report: the braces and brackets, the two field names and
the separators. None of them names an `error` field. -/
def report_texts : List String :=
  ["\x7b", "\"total_usage\": ", ",", "\"per_core_usage\": [", "", "]\x7d"]

/-- The test `line.substr(0, 3) == "cpu"` of `read_cpu_stats`. -/
def is_cpu_line (line : List Char) : Bool :=
  decide (line.take 3 = ['c', 'p', 'u'])

/-- The snapshots of the specification for a source text: one per line that begins with
`cpu`, in line order, each extracted from what follows the fifth character of its line. -/
def cpu_rows (text : String) : List CpuStats :=
  ((getlines text.toList []).filter is_cpu_line).map
    (fun line => extract_stats ⟨line.drop 5, true⟩)

/-- Every line of the text that begins with `cpu` has at least five characters. -/
def cpu_lines_long (text : String) : Prop :=
  ∀ line ∈ getlines text.toList [], is_cpu_line line = true → 5 ≤ line.length

instance (text : String) : Decidable (cpu_lines_long text) := by
  unfold cpu_lines_long
  infer_instance

/-- No number is ahead in the stream: after the white space the text ends (a field is
missing) or goes on with a character that is neither a digit nor a sign (a field is not a
number). -/
def no_number_ahead (ss : IStream) : Bool :=
  match ss.buf.dropWhile isspace with
  | [] => true
  | c :: _ => !isdigit c && c != '-' && c != '+'

/-- The stream of a line after the first `k` extractions `ss >> field`. -/
def stream_after : Nat → IStream → IStream
  | 0, ss => ss
  | k + 1, ss => (extract_ll (stream_after k ss) 0).2

/-- The eight counters of a row in the order in which they are extracted. -/
def CpuStats.fields (s : CpuStats) : List Int :=
  [s.user, s.nice, s.system, s.idle, s.iowait, s.irq, s.softirq, s.steal]

/-- Every counter of the row is non-negative. -/
def CpuStats.nonneg (s : CpuStats) : Prop :=
  0 ≤ s.user ∧ 0 ≤ s.nice ∧ 0 ≤ s.system ∧ 0 ≤ s.idle ∧ 0 ≤ s.iowait ∧ 0 ≤ s.irq ∧
    0 ≤ s.softirq ∧ 0 ≤ s.steal

/-- No counter decreases from the row `p` to the row `c`. -/
def CpuStats.mono (p c : CpuStats) : Prop :=
  p.user ≤ c.user ∧ p.nice ≤ c.nice ∧ p.system ≤ c.system ∧ p.idle ≤ c.idle ∧
    p.iowait ≤ c.iowait ∧ p.irq ≤ c.irq ∧ p.softirq ≤ c.softirq ∧ p.steal ≤ c.steal

instance (s : CpuStats) : Decidable s.nonneg := by
  unfold CpuStats.nonneg
  infer_instance

instance (p c : CpuStats) : Decidable (p.mono c) := by
  unfold CpuStats.mono
  infer_instance

/-- The value is in the range of `long long`. -/
def fits_ll (x : Int) : Prop :=
  LLONG_MIN ≤ x ∧ x ≤ LLONG_MAX

instance (x : Int) : Decidable (fits_ll x) := by
  unfold fits_ll
  infer_instance

/-- Every counter of the row is a `long long` value and no `long long` addition made by
`get_idle_time` (`idle + iowait`) or by `get_total_time` (the seven additions of
`user + nice + system + idle + iowait + irq + softirq + steal`, taken left to right)
overflows: every intermediate sum is in the range of `long long`. -/
def CpuStats.sums_fit (s : CpuStats) : Prop :=
  fits_ll s.user ∧ fits_ll s.nice ∧ fits_ll s.system ∧ fits_ll s.idle ∧ fits_ll s.iowait ∧
  fits_ll s.irq ∧ fits_ll s.softirq ∧ fits_ll s.steal ∧
  fits_ll (s.idle + s.iowait) ∧
  fits_ll (s.user + s.nice) ∧
  fits_ll (s.user + s.nice + s.system) ∧
  fits_ll (s.user + s.nice + s.system + s.idle) ∧
  fits_ll (s.user + s.nice + s.system + s.idle + s.iowait) ∧
  fits_ll (s.user + s.nice + s.system + s.idle + s.iowait + s.irq) ∧
  fits_ll (s.user + s.nice + s.system + s.idle + s.iowait + s.irq + s.softirq) ∧
  fits_ll (s.user + s.nice + s.system + s.idle + s.iowait + s.irq + s.softirq + s.steal)

instance (s : CpuStats) : Decidable s.sums_fit := by
  unfold CpuStats.sums_fit
  infer_instance

/-- No `long long` operation of the usage computation for one row overflows: the sums of
both rows are in range (`sums_fit`) and so are the two subtractions
`total_time - prev_total_time` and `total_idle - prev_total_idle`. On such rows the sums
and differences of the model are the values that the C++ computes. -/
def no_overflow (prev cur : CpuStats) : Prop :=
  prev.sums_fit ∧ cur.sums_fit ∧
  fits_ll (cur.get_total_time - prev.get_total_time) ∧
  fits_ll (cur.get_idle_time - prev.get_idle_time)

instance (prev cur : CpuStats) : Decidable (no_overflow prev cur) := by
  unfold no_overflow
  infer_instance

/-- The summed increase of the busy counters `user`, `nice`, `system`, `irq`, `softirq`
and `steal` from the row `p` to the row `c`. -/
def busy_delta (p c : CpuStats) : ℚ :=
  ((c.user - p.user : Int) : ℚ) + ((c.nice - p.nice : Int) : ℚ) +
    ((c.system - p.system : Int) : ℚ) + ((c.irq - p.irq : Int) : ℚ) +
    ((c.softirq - p.softirq : Int) : ℚ) + ((c.steal - p.steal : Int) : ℚ)

/-- The increase of `total_time` from the row `p` to the row `c`. -/
def total_delta (p c : CpuStats) : ℚ :=
  ((c.get_total_time - p.get_total_time : Int) : ℚ)

/-! ### Sample data -/

/-- A `/proc/stat` text with the aggregate row and one core. -/
def stat_a : String := "cpu  10 20 30 40 50 60 70 80 0 0\ncpu0 1 2 3 4 5 6 7 8 0 0\nintr 5\n"

/-- The same source a little later. -/
def stat_b : String := "cpu  20 20 30 50 50 60 70 80 0 0\ncpu0 2 2 3 5 5 6 7 8 0 0\nintr 9\n"

/-- The same source after a second core has come online. -/
def stat_c : String :=
  "cpu  30 20 30 60 50 60 70 80 0 0\ncpu0 3 2 3 6 5 6 7 8 0 0\ncpu1 1 0 0 1 0 0 0 0 0 0\n"

/-- The rows of `stat_a`. -/
def rows_a : List CpuStats := [⟨10, 20, 30, 40, 50, 60, 70, 80⟩, ⟨1, 2, 3, 4, 5, 6, 7, 8⟩]

/-- The rows of `stat_b`. -/
def rows_b : List CpuStats := [⟨20, 20, 30, 50, 50, 60, 70, 80⟩, ⟨2, 2, 3, 5, 5, 6, 7, 8⟩]

/-- The rows of `stat_c`. -/
def rows_c : List CpuStats :=
  [⟨30, 20, 30, 60, 50, 60, 70, 80⟩, ⟨3, 2, 3, 6, 5, 6, 7, 8⟩, ⟨1, 0, 0, 1, 0, 0, 0, 0⟩]

/-- A source that shows `stat_a`, then `stat_b`, then `stat_b` for ever. -/
def src_ab : ProcStat := fun k => if k = 0 then stat_a else stat_b

/-- A source that always shows `stat_a`. -/
def src_aa : ProcStat := fun _ => stat_a

/-- A source that shows `stat_a`, then `stat_c`, then `stat_c` for ever. -/
def src_ac : ProcStat := fun k => if k = 0 then stat_a else stat_c

/-- A source that cannot be read at first (no text), then shows `stat_a`, then `stat_b`. -/
def src_fail_ab : ProcStat := fun k => if k = 0 then "" else if k = 1 then stat_a else stat_b

/-- A malformed source: the aggregate row has three fields only and the core row has a
field that is not a number. -/
def stat_bad_a : String := "cpu  1 2 3\ncpu0 1 x 3 4 5 6 7 8\n"

/-- The same malformed source a little later. -/
def stat_bad_b : String := "cpu  2 2 4\ncpu0 3 x 3 4 5 6 7 8\n"

/-- The rows that `read_cpu_stats` makes of `stat_bad_a`. -/
def rows_bad_a : List CpuStats := [⟨1, 2, 3, 0, 0, 0, 0, 0⟩, ⟨1, 0, 0, 0, 0, 0, 0, 0⟩]

/-- The rows that `read_cpu_stats` makes of `stat_bad_b`. -/
def rows_bad_b : List CpuStats := [⟨2, 2, 4, 0, 0, 0, 0, 0⟩, ⟨3, 0, 0, 0, 0, 0, 0, 0⟩]

/-- A source that shows `stat_bad_a`, then `stat_bad_b` for ever. -/
def src_bad : ProcStat := fun k => if k = 0 then stat_bad_a else stat_bad_b

/-! ## Theorems: SpMV kernel -/

/-- Under the documented preconditions every row `i < num_rows` is delimited by two row
pointers `lo ≤ hi` that are positions in `values`. -/
theorem csr_pre_rows {α : Type} (values : List α) (column_indices row_pointers : List Int)
    (vector result : List α) (num_rows num_cols : Int)
    (h : csr_pre values column_indices row_pointers vector result num_rows num_cols) :
    ∀ i, i < num_rows.toNat → ∃ lo hi : Nat, row_pointers[i]? = some (lo : Int) ∧
      row_pointers[i + 1]? = some (hi : Int) ∧ lo ≤ hi ∧ hi ≤ values.length := by
  obtain ⟨_, hlen, hmono, hfirst, hlast, _⟩ := h
  intro i hi
  have h0 : 0 < row_pointers.length := by omega
  have hi0 : i < row_pointers.length := by omega
  have hi1 : i + 1 < row_pointers.length := by omega
  have hn : num_rows.toNat < row_pointers.length := by omega
  rw [List.pairwise_iff_getElem] at hmono
  rw [List.getElem?_eq_getElem h0] at hfirst
  rw [List.getElem?_eq_getElem hn] at hlast
  have e0 : row_pointers[0] = 0 := Option.some.inj hfirst
  have en : row_pointers[num_rows.toNat] = (values.length : Int) := Option.some.inj hlast
  have a1 : (0 : Int) ≤ row_pointers[i] := by
    rcases Nat.eq_zero_or_pos i with hz | hp
    · subst hz; omega
    · have := hmono 0 i h0 hi0 hp; omega
  have a2 : row_pointers[i] ≤ row_pointers[i + 1] := hmono i (i + 1) hi0 hi1 (by omega)
  have a3 : row_pointers[i + 1] ≤ (values.length : Int) := by
    rcases Nat.eq_or_lt_of_le (show i + 1 ≤ num_rows.toNat by omega) with heq | hlt
    · simp only [heq]; omega
    · have := hmono (i + 1) num_rows.toNat hi1 hn hlt; omega
  refine ⟨row_pointers[i].toNat, row_pointers[i + 1].toNat, ?_, ?_, ?_, ?_⟩
  · rw [List.getElem?_eq_getElem hi0, Int.toNat_of_nonneg a1]
  · rw [List.getElem?_eq_getElem hi1, Int.toNat_of_nonneg (by omega)]
  · omega
  · omega

section SpmvProofs

variable {α : Type} [Zero α] [Add α] [Mul α]

theorem readAt_natCast {β : Type} (p : List β) (j : Nat) (h : j < p.length) :
    readAt p (j : Int) = some p[j] := by
  unfold readAt
  have : ¬ ((j : Int) < 0) := by omega
  simp [this, List.getElem?_eq_getElem h]

theorem readAt_of_bounds {β : Type} (p : List β) (c : Int) (d : β) (h0 : 0 ≤ c)
    (h1 : c < p.length) : readAt p c = some (p.getD c.toNat d) := by
  obtain ⟨k, rfl⟩ := Int.eq_ofNat_of_zero_le h0
  have hk : k < p.length := by exact_mod_cast h1
  rw [readAt_natCast p k hk]
  simp [List.getElem?_eq_getElem hk]

theorem spmv_inner_eq (data : List α) (indices : List Int) (vector : List α) (num_cols : Int)
    (hlen : indices.length = data.length)
    (hcol : ∀ c ∈ indices, 0 ≤ c ∧ c < num_cols)
    (hvec : num_cols ≤ vector.length) :
    ∀ (n j : Nat) (sum : α), j + n ≤ data.length →
      spmv_inner data indices vector n (j : Int) sum =
        some ((List.range' j n).foldl (fun s k => s + csr_term data indices vector k) sum) := by
  intro n
  induction n with
  | zero => intro j sum _; simp [spmv_inner]
  | succ n ih =>
    intro j sum hj
    have hjd : j < data.length := by omega
    have hji : j < indices.length := by omega
    have hc := hcol indices[j] (List.getElem_mem hji)
    have hcv : indices[j] < (vector.length : Int) := lt_of_lt_of_le hc.2 hvec
    have hnext : ((j : Int) + 1) = ((j + 1 : Nat) : Int) := by push_cast; rfl
    rw [spmv_inner, readAt_natCast data j hjd, readAt_natCast indices j hji]
    simp only [Option.bind_eq_bind, Option.some_bind]
    rw [readAt_of_bounds vector indices[j] 0 hc.1 hcv, hnext]
    simp only [Option.bind_eq_bind, Option.some_bind]
    rw [ih (j + 1) _ (by omega), List.range'_succ, List.foldl_cons]
    simp [csr_term, List.getElem?_eq_getElem hjd, List.getElem?_eq_getElem hji]

theorem readAt_of_getElem? {β : Type} (p : List β) (j : Nat) (v : β) (h : p[j]? = some v) :
    readAt p (j : Int) = some v := by
  unfold readAt
  have : ¬ ((j : Int) < 0) := by omega
  simp [this, h]

theorem writeAt_natCast {β : Type} (p : List β) (j : Nat) (v : β) (h : j < p.length) :
    writeAt p (j : Int) v = some (p.set j v) := by
  unfold writeAt
  have : ¬ ((j : Int) < 0) := by omega
  simp [this, h]

/-- Loop invariant of the outer loop: started at row `i` with `n` rows to go, it ends
normally, keeps the buffer length, leaves every entry outside `[i, i + n)` as it was and
stores the row sum in every entry inside. -/
theorem spmv_outer_eq (data : List α) (indices indptr : List Int) (vector : List α)
    (num_cols : Int) (m : Nat)
    (hlen : indices.length = data.length)
    (hcol : ∀ c ∈ indices, 0 ≤ c ∧ c < num_cols)
    (hvec : num_cols ≤ vector.length)
    (hrows : ∀ i, i < m → ∃ lo hi : Nat, indptr[i]? = some (lo : Int) ∧
      indptr[i + 1]? = some (hi : Int) ∧ lo ≤ hi ∧ hi ≤ data.length) :
    ∀ (n i : Nat) (result : List α), i + n = m → m ≤ result.length →
      ∃ out, spmv_outer data indices indptr vector n (i : Int) result = some out ∧
        out.length = result.length ∧
        (∀ k, k < i ∨ i + n ≤ k → out[k]? = result[k]?) ∧
        (∀ k, i ≤ k → k < i + n → out[k]? =
          some (row_sum data indices vector (row_ptr indptr k) (row_ptr indptr (k + 1)))) := by
  intro n
  induction n with
  | zero =>
    intro i result _ _
    exact ⟨result, by simp [spmv_outer], rfl, fun _ _ => rfl, fun k h1 h2 => by omega⟩
  | succ n ih =>
    intro i result him hres
    obtain ⟨lo, hi, hlo, hhi, hle, hbound⟩ := hrows i (by omega)
    have hnext : ((i : Int) + 1) = ((i + 1 : Nat) : Int) := by push_cast; rfl
    have htrip : ((hi : Int) - (lo : Int)).toNat = hi - lo := by omega
    have hires : i < result.length := by omega
    obtain ⟨out, hout, hlen', hframe, hsum⟩ :=
      ih (i + 1) (result.set i (row_sum data indices vector lo hi)) (by omega)
        (by simpa using hres)
    refine ⟨out, ?_, by simpa using hlen', ?_, ?_⟩
    · rw [spmv_outer, readAt_of_getElem? indptr i _ hlo, hnext,
        readAt_of_getElem? indptr (i + 1) _ hhi]
      simp only [Option.bind_eq_bind, Option.some_bind]
      rw [htrip, spmv_inner_eq data indices vector num_cols hlen hcol hvec (hi - lo) lo 0
        (by omega)]
      simp only [Option.bind_eq_bind, Option.some_bind]
      rw [writeAt_natCast result i _ hires]
      simp only [Option.bind_eq_bind, Option.some_bind]
      exact hout
    · intro k hk
      rw [hframe k (by omega), List.getElem?_set_ne (by omega)]
    · intro k hk1 hk2
      rcases Nat.eq_or_lt_of_le hk1 with heq | hlt
      · subst heq
        rw [hframe i (by omega), List.getElem?_set_self hires]
        simp [row_ptr, hlo, hhi]
      · exact hsum k (by omega) (by omega)

/-- C1: for every CSR input satisfying the documented invariants the call ends normally
and, for every row `i` in `[0, num_rows)`, `result[i]` holds the sum, started from `0` and
taken over `j` from `row_pointers[i]` up to but excluding `row_pointers[i+1]` in increasing
`j`, of `values[j] * vector[column_indices[j]]`. No law of arithmetic is assumed, so this is
the sum in exactly that order. -/
theorem spmv_csr_cpp_stores_row_sums (values : List α) (column_indices row_pointers : List Int)
    (vector result : List α) (num_rows num_cols : Int)
    (h : csr_pre values column_indices row_pointers vector result num_rows num_cols) :
    ∃ out, spmv_csr_cpp values column_indices row_pointers vector result num_rows = some out ∧
      ∀ i : Nat, (i : Int) < num_rows →
        out[i]? = some (row_sum values column_indices vector
          (row_ptr row_pointers i) (row_ptr row_pointers (i + 1))) := by
  have hrows := csr_pre_rows values column_indices row_pointers vector result num_rows num_cols h
  obtain ⟨h0, _, _, _, _, hlen, hcol, hvec, hres⟩ := h
  obtain ⟨out, hout, _, _, hsum⟩ :=
    spmv_outer_eq values column_indices row_pointers vector num_cols num_rows.toNat hlen hcol
      hvec hrows num_rows.toNat 0 result (by omega) (by omega)
  exact ⟨out, hout, fun i hi => hsum i (by omega) (by omega)⟩

/-- The example of C1: `values = [1,2,3]`, `column_indices = [0,2,1]`,
`row_pointers = [0,2,3]`, `vector = [1,1,1]`, `num_rows = 2` gives `result = [3,3]`. -/
theorem spmv_csr_cpp_stores_row_sums_witness :
    csr_pre [(1 : Int), 2, 3] [0, 2, 1] [0, 2, 3] [1, 1, 1] [0, 0] 2 3 ∧
    (∃ out, spmv_csr_cpp [(1 : Int), 2, 3] [0, 2, 1] [0, 2, 3] [1, 1, 1] [0, 0] 2 = some out ∧
      ∀ i : Nat, (i : Int) < 2 →
        out[i]? = some (row_sum [(1 : Int), 2, 3] [0, 2, 1] [1, 1, 1]
          (row_ptr [0, 2, 3] i) (row_ptr [0, 2, 3] (i + 1)))) ∧
    spmv_csr_cpp [(1 : Int), 2, 3] [0, 2, 1] [0, 2, 3] [1, 1, 1] [0, 0] 2 = some [3, 3] :=
  ⟨by decide,
    spmv_csr_cpp_stores_row_sums [(1 : Int), 2, 3] [0, 2, 1] [0, 2, 3] [1, 1, 1] [0, 0] 2 3
      (by decide),
    by decide⟩

end SpmvProofs

section DenseProofs

variable {R : Type} [CommSemiring R]

theorem foldl_add_eq_sum (f : Nat → R) (l : List Nat) (a : R) :
    l.foldl (fun s j => s + f j) a = a + (l.map f).sum := by
  induction l generalizing a with
  | nil => simp
  | cons j l ih => simp [ih, add_assoc]

theorem list_sum_range (f : Nat → R) (n : Nat) :
    ((List.range n).map f).sum = ∑ c in Finset.range n, f c := by
  induction n with
  | zero => simp
  | succ n ih => simp [List.range_succ, Finset.sum_range_succ, ih]

/-- Regrouping the products of a row by column gives the same sum. -/
theorem dense_regroup (values : List R) (column_indices : List Int) (x : List R) (nc : Nat)
    (l : List Nat)
    (hcol : ∀ j ∈ l, ∃ c : Nat, c < nc ∧ column_indices.getD j 0 = (c : Int)) :
    ((List.range nc).map (fun c : Nat =>
      ((l.filter (fun j => decide (column_indices.getD j 0 = (c : Int)))).map
        (fun j => values.getD j 0)).sum * x.getD c 0)).sum =
      (l.map (csr_term values column_indices x)).sum := by
  induction l with
  | nil => simp
  | cons j l ih =>
    obtain ⟨c0, hc0, hj⟩ := hcol j (List.mem_cons_self j l)
    have ih' := ih (fun k hk => hcol k (List.mem_cons_of_mem j hk))
    rw [list_sum_range] at ih' ⊢
    have hsplit : ∀ c : Nat,
        (((j :: l).filter (fun k => decide (column_indices.getD k 0 = (c : Int)))).map
          (fun k => values.getD k 0)).sum =
        (if c0 = c then values.getD j 0 else 0) +
          ((l.filter (fun k => decide (column_indices.getD k 0 = (c : Int)))).map
            (fun k => values.getD k 0)).sum := by
      intro c
      by_cases hc : c0 = c
      · have : column_indices.getD j 0 = (c : Int) := by rw [hj, hc]
        rw [List.filter_cons, if_pos (decide_eq_true this), if_pos hc, List.map_cons,
          List.sum_cons]
      · have : ¬ column_indices.getD j 0 = (c : Int) := by
          rw [hj]; exact_mod_cast hc
        rw [List.filter_cons, if_neg (by simpa using this), if_neg hc, zero_add]
    simp only [hsplit, add_mul, Finset.sum_add_distrib, ih', List.map_cons, List.sum_cons]
    congr 1
    simp only [ite_mul, zero_mul]
    rw [Finset.sum_ite_eq (Finset.range nc) c0 (fun c => values.getD j 0 * x.getD c 0)]
    simp only [Finset.mem_range, hc0, if_true, csr_term, hj, Int.toNat_ofNat]

theorem row_sum_eq_dense (values : List R) (column_indices row_pointers : List Int)
    (x : List R) (num_cols : Int) (i : Nat)
    (hlen : column_indices.length = values.length)
    (hcol : ∀ c ∈ column_indices, 0 ≤ c ∧ c < num_cols)
    (hhi : row_ptr row_pointers i ≤ row_ptr row_pointers (i + 1))
    (hbound : row_ptr row_pointers (i + 1) ≤ values.length) :
    row_sum values column_indices x (row_ptr row_pointers i) (row_ptr row_pointers (i + 1)) =
      dense_mul_row values column_indices row_pointers x num_cols.toNat i := by
  unfold row_sum dense_mul_row dense_entry
  rw [foldl_add_eq_sum, zero_add, dense_regroup]
  intro j hj
  rw [List.mem_range'_1] at hj
  have hjl : j < column_indices.length := by omega
  have hc := hcol column_indices[j] (List.getElem_mem hjl)
  refine ⟨column_indices[j].toNat, by omega, ?_⟩
  simp [List.getElem?_eq_getElem hjl, Int.toNat_of_nonneg hc.1]

/-- C2: in exact arithmetic (any commutative semiring), for every well-formed CSR matrix
with `num_rows` rows and `num_cols` columns and every vector with an entry for each column,
the call ends normally and `result[i]` is row `i` of the dense product `A * x`: the sum over
`c` in `[0, num_cols)` of `A[i][c] * x[c]`, where `A[i][c]` is the sum of `values[j]` over the
entries `j` of row `i` with `column_indices[j] = c`. -/
theorem spmv_csr_cpp_eq_dense_product (values : List R) (column_indices row_pointers : List Int)
    (x result : List R) (num_rows num_cols : Int)
    (h : csr_pre values column_indices row_pointers x result num_rows num_cols) :
    ∃ out, spmv_csr_cpp values column_indices row_pointers x result num_rows = some out ∧
      ∀ i : Nat, (i : Int) < num_rows →
        out[i]? = some (dense_mul_row values column_indices row_pointers x num_cols.toNat i) := by
  have hrows := csr_pre_rows values column_indices row_pointers x result num_rows num_cols h
  obtain ⟨h0, _, _, _, _, hlen, hcol, hvec, hres⟩ := h
  obtain ⟨out, hout, _, _, hsum⟩ :=
    spmv_outer_eq values column_indices row_pointers x num_cols num_rows.toNat hlen hcol
      hvec hrows num_rows.toNat 0 result (by omega) (by omega)
  refine ⟨out, hout, fun i hi => ?_⟩
  obtain ⟨lo, hi', hlo, hhi, hle, hbound⟩ := hrows i (by omega)
  have e1 : row_ptr row_pointers i = lo := by simp [row_ptr, hlo]
  have e2 : row_ptr row_pointers (i + 1) = hi' := by simp [row_ptr, hhi]
  rw [hsum i (by omega) (by omega),
    row_sum_eq_dense values column_indices row_pointers x num_cols i hlen hcol
      (by omega) (by omega)]

/-- The matrix `[[1,0,2],[0,3,0]]` times `[1,1,1]` over the rationals. -/
theorem spmv_csr_cpp_eq_dense_product_witness :
    csr_pre [(1 : ℚ), 2, 3] [0, 2, 1] [0, 2, 3] [1, 1, 1] [0, 0] 2 3 ∧
    ∃ out, spmv_csr_cpp [(1 : ℚ), 2, 3] [0, 2, 1] [0, 2, 3] [1, 1, 1] [0, 0] 2 = some out ∧
      ∀ i : Nat, (i : Int) < 2 →
        out[i]? = some (dense_mul_row [(1 : ℚ), 2, 3] [0, 2, 1] [0, 2, 3] [1, 1, 1]
          (3 : Int).toNat i) :=
  ⟨by decide,
    spmv_csr_cpp_eq_dense_product [(1 : ℚ), 2, 3] [0, 2, 1] [0, 2, 3] [1, 1, 1] [0, 0] 2 3
      (by decide)⟩

end DenseProofs

/-! ## Theorems: CPU-utilisation sampler -/

theorem numbers_append (ps qs : List Piece) : numbers (ps ++ qs) = numbers ps ++ numbers qs := by
  induction ps with
  | nil => rfl
  | cons p ps ih => cases p <;> simp [numbers, ih]

theorem core_loop_append (prev cur : List CpuStats) (n i : Nat) (acc : List Piece) :
    core_loop prev cur n i acc = acc ++ core_loop prev cur n i [] := by
  induction n generalizing i acc with
  | zero => simp [core_loop]
  | succ n ih =>
    rw [core_loop, ih, core_loop, ih (i + 1) ([] ++ _)]
    simp

theorem numbers_core_loop (prev cur : List CpuStats) (n i : Nat) :
    numbers (core_loop prev cur n i []) =
      (List.range n).map (fun k => row_usage prev cur (i + k)) := by
  induction n generalizing i with
  | zero => simp [core_loop, numbers]
  | succ n ih =>
    rw [core_loop, core_loop_append, numbers_append, ih, List.range_succ_eq_map]
    simp [numbers, row_usage, Nat.add_comm, Nat.add_left_comm]

theorem report_fields_usage_report (prev cur : List CpuStats) :
    report_fields (usage_report prev cur) = some (row_usage prev cur 0, core_usages prev cur) := by
  unfold usage_report
  simp only []
  rw [core_loop_append]
  simp only [List.cons_append, List.nil_append, report_fields, List.getLast?_concat,
    List.dropLast_concat, and_self, if_true, numbers_core_loop]
  simp [row_usage, core_usages, Nat.add_comm]

theorem report_fields_error_json : report_fields error_json = none := rfl

theorem usage_report_ne_error_json (prev cur : List CpuStats) :
    usage_report prev cur ≠ error_json := by
  intro h
  have := report_fields_usage_report prev cur
  rw [h, report_fields_error_json] at this
  exact Option.noConfusion this

theorem compare_and_report_ok (prev cur : List CpuStats) (hp : prev ≠ []) (hc : cur ≠ [])
    (hlen : prev.length = cur.length) :
    compare_and_report prev cur = usage_report prev cur := by
  unfold compare_and_report
  simp [hp, hc, hlen]

theorem compare_and_report_bad (prev cur : List CpuStats)
    (h : prev = [] ∨ cur = [] ∨ prev.length ≠ cur.length) :
    compare_and_report prev cur = error_json := by
  unfold compare_and_report
  rcases h with h | h | h <;> simp [h]

theorem get_cpu_usage_json_has_baseline (src : ProcStat) (st : State) (cur : List CpuStats)
    (hb : st.first_call = false) (hread : read_cpu_stats (src st.reads) = .ok cur) :
    get_cpu_usage_json src st =
      .ok (compare_and_report st.prev_stats cur, ⟨cur, false, st.reads + 1⟩) := by
  unfold get_cpu_usage_json
  simp [hread, hb, bind, Except.bind, pure, Except.pure]

theorem get_cpu_usage_json_bootstrap (src : ProcStat) (st : State) (r1 r2 : List CpuStats)
    (hb : st.first_call = true) (h1 : read_cpu_stats (src st.reads) = .ok r1)
    (h2 : read_cpu_stats (src (st.reads + 1)) = .ok r2) :
    get_cpu_usage_json src st = .ok (compare_and_report r1 r2, ⟨r2, false, st.reads + 2⟩) := by
  unfold get_cpu_usage_json
  simp [h1, h2, hb, bind, Except.bind, pure, Except.pure]

/-- Every returning call is one of the two paths: one read against the stored baseline,
or, on the first call, two reads with the first as baseline. -/
theorem get_cpu_usage_json_inv (src : ProcStat) (st : State) (out : List Piece) (st' : State)
    (h : get_cpu_usage_json src st = .ok (out, st')) :
    ∃ base cur,
      ((st.first_call = false ∧ base = st.prev_stats ∧
          read_cpu_stats (src st.reads) = .ok cur ∧ st'.reads = st.reads + 1) ∨
        (st.first_call = true ∧ read_cpu_stats (src st.reads) = .ok base ∧
          read_cpu_stats (src (st.reads + 1)) = .ok cur ∧ st'.reads = st.reads + 2)) ∧
      out = compare_and_report base cur ∧ st' = ⟨cur, false, st'.reads⟩ := by
  cases h1 : read_cpu_stats (src st.reads) with
  | error e => simp [get_cpu_usage_json, h1, bind, Except.bind] at h
  | ok r1 =>
    cases hb : st.first_call with
    | false =>
      rw [get_cpu_usage_json_has_baseline src st r1 hb h1] at h
      injection h with h
      injection h with ho hs
      subst ho hs
      exact ⟨st.prev_stats, r1, Or.inl ⟨rfl, rfl, rfl, rfl⟩, rfl, rfl⟩
    | true =>
      cases h2 : read_cpu_stats (src (st.reads + 1)) with
      | error e => simp [get_cpu_usage_json, h1, h2, hb, bind, Except.bind] at h
      | ok r2 =>
        rw [get_cpu_usage_json_bootstrap src st r1 r2 hb h1 h2] at h
        injection h with h
        injection h with ho hs
        subst ho hs
        exact ⟨r1, r2, Or.inr ⟨rfl, rfl, rfl, rfl⟩, rfl, rfl⟩

theorem usage_eq_spec_usage_pct (p c : CpuStats) : usage p c = spec_usage_pct p c := by
  unfold usage spec_usage_pct CpuStats.get_idle_time CpuStats.get_total_time
  push_cast
  rfl

theorem get_cpu_usage_json_of_compares (src : ProcStat) (st : State) (base cur : List CpuStats)
    (h : Compares src st base cur) :
    get_cpu_usage_json src st =
      .ok (compare_and_report base cur, ⟨cur, false, st.reads + reads_of_call st⟩) := by
  rcases h with ⟨hb, hp, hr⟩ | ⟨hb, h1, h2⟩
  · rw [get_cpu_usage_json_has_baseline src st cur hb hr, hp]
    simp [reads_of_call, hb]
  · rw [get_cpu_usage_json_bootstrap src st base cur hb h1 h2]
    simp [reads_of_call, hb]

/-- C3: whenever the baseline and the current read that a call compares are both non-empty
with the same row count, the call returns a report whose `total_usage` is the usage of row 0
and whose `per_core_usage` lists the usages of rows `1, ..., N` in row order, with exactly
`N = row count - 1` entries; the usage of a row is
`(1 - idle_delta / total_delta) * 100` if `total_delta > 0` and `0` otherwise, with the
deltas, `idle_time = idle + iowait` and `total_time` = the sum of the eight counters as in
`spec_usage_pct`. -/
theorem get_cpu_usage_json_reports_usage (src : ProcStat) (st : State)
    (base cur : List CpuStats) (h : Compares src st base cur)
    (hp : base ≠ []) (hc : cur ≠ []) (hlen : base.length = cur.length) :
    ∃ out st' cores, get_cpu_usage_json src st = .ok (out, st') ∧
      report_fields out =
        some (spec_usage_pct (base.getD 0 default) (cur.getD 0 default), cores) ∧
      cores.length = cur.length - 1 ∧
      ∀ k, k < cur.length - 1 →
        cores[k]? =
          some (spec_usage_pct (base.getD (k + 1) default) (cur.getD (k + 1) default)) := by
  refine ⟨_, _, core_usages base cur, get_cpu_usage_json_of_compares src st base cur h, ?_, ?_, ?_⟩
  · rw [compare_and_report_ok base cur hp hc hlen, report_fields_usage_report, row_usage,
      usage_eq_spec_usage_pct]
  · simp [core_usages]
  · intro k hk
    simp [core_usages, row_usage, usage_eq_spec_usage_pct, hk]

theorem read_stat_a : read_cpu_stats stat_a = .ok rows_a := rfl

theorem read_stat_b : read_cpu_stats stat_b = .ok rows_b := rfl

theorem read_stat_c : read_cpu_stats stat_c = .ok rows_c := rfl

theorem read_empty : read_cpu_stats "" = .ok [] := rfl

/-- On the first call with `stat_a` then `stat_b`, the report is computed from those two. -/
theorem get_cpu_usage_json_reports_usage_witness :
    Compares src_ab State.init rows_a rows_b ∧ rows_a ≠ [] ∧ rows_b ≠ [] ∧
    rows_a.length = rows_b.length ∧
    ∃ out st' cores, get_cpu_usage_json src_ab State.init = .ok (out, st') ∧
      report_fields out =
        some (spec_usage_pct (rows_a.getD 0 default) (rows_b.getD 0 default), cores) ∧
      cores.length = rows_b.length - 1 ∧
      ∀ k, k < rows_b.length - 1 →
        cores[k]? =
          some (spec_usage_pct (rows_a.getD (k + 1) default) (rows_b.getD (k + 1) default)) :=
  ⟨Or.inr ⟨rfl, read_stat_a, read_stat_b⟩, by decide, by decide, by decide,
    get_cpu_usage_json_reports_usage src_ab State.init rows_a rows_b
      (Or.inr ⟨rfl, read_stat_a, read_stat_b⟩) (by decide) (by decide) (by decide)⟩

/-- C4, counterexample: from the row `user = 5, idle = 10` to the row `user = 0,
idle = 20` both `total_time` (15 to 20) and `idle_time` (10 to 20) are non-decreasing and
`total_delta = 5 > 0`, yet the computed usage is `-100`, outside `[0, 100]`. No sum or
difference overflows on these rows. -/
theorem usage_out_of_range_counterexample :
    (⟨5, 0, 0, 10, 0, 0, 0, 0⟩ : CpuStats).get_total_time ≤
      (⟨0, 0, 0, 20, 0, 0, 0, 0⟩ : CpuStats).get_total_time ∧
    (⟨5, 0, 0, 10, 0, 0, 0, 0⟩ : CpuStats).get_idle_time ≤
      (⟨0, 0, 0, 20, 0, 0, 0, 0⟩ : CpuStats).get_idle_time ∧
    0 < (⟨0, 0, 0, 20, 0, 0, 0, 0⟩ : CpuStats).get_total_time -
      (⟨5, 0, 0, 10, 0, 0, 0, 0⟩ : CpuStats).get_total_time ∧
    usage ⟨5, 0, 0, 10, 0, 0, 0, 0⟩ ⟨0, 0, 0, 20, 0, 0, 0, 0⟩ = -100 ∧
    ¬ (0 ≤ usage ⟨5, 0, 0, 10, 0, 0, 0, 0⟩ ⟨0, 0, 0, 20, 0, 0, 0, 0⟩ ∧
      usage ⟨5, 0, 0, 10, 0, 0, 0, 0⟩ ⟨0, 0, 0, 20, 0, 0, 0, 0⟩ ≤ 100) ∧
    no_overflow ⟨5, 0, 0, 10, 0, 0, 0, 0⟩ ⟨0, 0, 0, 20, 0, 0, 0, 0⟩ := by
  have hu : usage ⟨5, 0, 0, 10, 0, 0, 0, 0⟩ ⟨0, 0, 0, 20, 0, 0, 0, 0⟩ = -100 := by
    norm_num [usage, CpuStats.get_idle_time, CpuStats.get_total_time]
  refine ⟨by decide, by decide, by decide, hu, ?_, by decide⟩
  rw [hu]
  norm_num

/-- C4, amended: for all previous and current counter rows on which no `long long` sum or
difference of the computation overflows (`no_overflow`), where `total_time` and `idle_time`
are non-decreasing from previous to current, `total_delta > 0` and the idle time grows by
no more than the total time (`idle_delta ≤ total_delta`), the usage percentage computed by
the sampler for that row lies in the closed interval `[0, 100]`. -/
theorem usage_in_range (prev cur : CpuStats)
    (_hfit : no_overflow prev cur)
    (_htotal : prev.get_total_time ≤ cur.get_total_time)
    (hidle : prev.get_idle_time ≤ cur.get_idle_time)
    (hpos : 0 < cur.get_total_time - prev.get_total_time)
    (hbusy : cur.get_idle_time - prev.get_idle_time ≤
      cur.get_total_time - prev.get_total_time) :
    0 ≤ usage prev cur ∧ usage prev cur ≤ 100 := by
  have htd : (0 : ℚ) < ((cur.get_total_time - prev.get_total_time : Int) : ℚ) := by
    exact_mod_cast hpos
  have hid : (0 : ℚ) ≤ ((cur.get_idle_time - prev.get_idle_time : Int) : ℚ) := by
    have : (0 : Int) ≤ cur.get_idle_time - prev.get_idle_time := by omega
    exact_mod_cast this
  have hle : ((cur.get_idle_time - prev.get_idle_time : Int) : ℚ) ≤
      ((cur.get_total_time - prev.get_total_time : Int) : ℚ) := by
    exact_mod_cast hbusy
  have h0 : 0 ≤ ((cur.get_idle_time - prev.get_idle_time : Int) : ℚ) /
      ((cur.get_total_time - prev.get_total_time : Int) : ℚ) := div_nonneg hid htd.le
  have h1 : ((cur.get_idle_time - prev.get_idle_time : Int) : ℚ) /
      ((cur.get_total_time - prev.get_total_time : Int) : ℚ) ≤ 1 := (div_le_one htd).mpr hle
  unfold usage
  simp only [gt_iff_lt, htd, if_true]
  constructor <;> nlinarith

/-- Half of the new time was idle: the usage is within range. -/
theorem usage_in_range_witness :
    no_overflow ⟨10, 0, 0, 10, 0, 0, 0, 0⟩ ⟨15, 0, 0, 15, 0, 0, 0, 0⟩ ∧
    (⟨10, 0, 0, 10, 0, 0, 0, 0⟩ : CpuStats).get_total_time ≤
      (⟨15, 0, 0, 15, 0, 0, 0, 0⟩ : CpuStats).get_total_time ∧
    (⟨10, 0, 0, 10, 0, 0, 0, 0⟩ : CpuStats).get_idle_time ≤
      (⟨15, 0, 0, 15, 0, 0, 0, 0⟩ : CpuStats).get_idle_time ∧
    0 < (⟨15, 0, 0, 15, 0, 0, 0, 0⟩ : CpuStats).get_total_time -
      (⟨10, 0, 0, 10, 0, 0, 0, 0⟩ : CpuStats).get_total_time ∧
    (⟨15, 0, 0, 15, 0, 0, 0, 0⟩ : CpuStats).get_idle_time -
        (⟨10, 0, 0, 10, 0, 0, 0, 0⟩ : CpuStats).get_idle_time ≤
      (⟨15, 0, 0, 15, 0, 0, 0, 0⟩ : CpuStats).get_total_time -
        (⟨10, 0, 0, 10, 0, 0, 0, 0⟩ : CpuStats).get_total_time ∧
    (0 ≤ usage ⟨10, 0, 0, 10, 0, 0, 0, 0⟩ ⟨15, 0, 0, 15, 0, 0, 0, 0⟩ ∧
      usage ⟨10, 0, 0, 10, 0, 0, 0, 0⟩ ⟨15, 0, 0, 15, 0, 0, 0, 0⟩ ≤ 100) :=
  ⟨by decide, by decide, by decide, by decide, by decide,
    usage_in_range ⟨10, 0, 0, 10, 0, 0, 0, 0⟩ ⟨15, 0, 0, 15, 0, 0, 0, 0⟩
      (by decide) (by decide) (by decide) (by decide) (by decide)⟩

theorem usage_self (s : CpuStats) : usage s s = 0 := by
  simp [usage]

theorem core_usages_self (s : List CpuStats) :
    core_usages s s = List.replicate (s.length - 1) 0 := by
  simp [core_usages, row_usage, usage_self]

/-- C5: for every non-empty snapshot `s`, a call that compares the baseline `s` with a
current read that is also `s` returns a report, not the error text, in which `total_usage`
is `0` and every per-core usage is `0`; on every row the guard `total_delta > 0` of the
division is false, so no division is made. -/
theorem get_cpu_usage_json_zero_delta (src : ProcStat) (st : State) (s : List CpuStats)
    (h : Compares src st s s) (hne : s ≠ []) :
    (∃ out st', get_cpu_usage_json src st = .ok (out, st') ∧ out ≠ error_json ∧
      report_fields out = some (0, List.replicate (s.length - 1) 0)) ∧
    ∀ row ∈ s, ¬ (((row.get_total_time - row.get_total_time : Int) : ℚ) > 0) := by
  refine ⟨⟨_, _, get_cpu_usage_json_of_compares src st s s h, ?_, ?_⟩, ?_⟩
  · rw [compare_and_report_ok s s hne hne rfl]
    exact usage_report_ne_error_json s s
  · rw [compare_and_report_ok s s hne hne rfl, report_fields_usage_report, row_usage,
      usage_self, core_usages_self]
  · intro row _
    simp

/-- Two consecutive reads of an unchanged `/proc/stat` on the first call. -/
theorem get_cpu_usage_json_zero_delta_witness :
    Compares src_aa State.init rows_a rows_a ∧ rows_a ≠ [] ∧
    ((∃ out st', get_cpu_usage_json src_aa State.init = .ok (out, st') ∧ out ≠ error_json ∧
      report_fields out = some (0, List.replicate (rows_a.length - 1) 0)) ∧
    ∀ row ∈ rows_a, ¬ (((row.get_total_time - row.get_total_time : Int) : ℚ) > 0)) :=
  ⟨Or.inr ⟨rfl, read_stat_a, read_stat_a⟩, by decide,
    get_cpu_usage_json_zero_delta src_aa State.init rows_a
      (Or.inr ⟨rfl, read_stat_a, read_stat_a⟩) (by decide)⟩

/-- C6: when the baseline and the current read that a call compares have different row
counts, the call returns the error text (which carries no percentages), the stored baseline
becomes exactly the current read, and a following call whose read has the same non-zero row
count as that new baseline returns a report, not the error text, whose percentages are the
usages between the new baseline and that read. -/
theorem get_cpu_usage_json_mismatch (src : ProcStat) (st : State) (base cur : List CpuStats)
    (h : Compares src st base cur) (hdiff : base.length ≠ cur.length) :
    ∃ st1, get_cpu_usage_json src st = .ok (error_json, st1) ∧
      report_fields error_json = none ∧ numbers error_json = [] ∧
      st1.prev_stats = cur ∧
      ∀ nxt, read_cpu_stats (src st1.reads) = .ok nxt → nxt.length = cur.length →
        nxt ≠ [] →
        ∃ out2 st2, get_cpu_usage_json src st1 = .ok (out2, st2) ∧ out2 ≠ error_json ∧
          report_fields out2 = some (row_usage cur nxt 0, core_usages cur nxt) := by
  have hcall := get_cpu_usage_json_of_compares src st base cur h
  rw [compare_and_report_bad base cur (Or.inr (Or.inr hdiff))] at hcall
  refine ⟨_, hcall, rfl, rfl, rfl, ?_⟩
  intro nxt hnxt hlen hne
  have hcur : cur ≠ [] := by
    intro hc
    rw [hc] at hlen
    exact hne (List.length_eq_zero.mp hlen)
  refine ⟨_, _, get_cpu_usage_json_has_baseline src _ nxt rfl hnxt, ?_, ?_⟩
  · rw [compare_and_report_ok cur nxt hcur hne hlen.symm]
    exact usage_report_ne_error_json cur nxt
  · rw [compare_and_report_ok cur nxt hcur hne hlen.symm, report_fields_usage_report]

/-- A second core comes online between the two reads of the first call. -/
theorem get_cpu_usage_json_mismatch_witness :
    Compares src_ac State.init rows_a rows_c ∧ rows_a.length ≠ rows_c.length ∧
    ∃ st1, get_cpu_usage_json src_ac State.init = .ok (error_json, st1) ∧
      report_fields error_json = none ∧ numbers error_json = [] ∧
      st1.prev_stats = rows_c ∧
      ∀ nxt, read_cpu_stats (src_ac st1.reads) = .ok nxt → nxt.length = rows_c.length →
        nxt ≠ [] →
        ∃ out2 st2, get_cpu_usage_json src_ac st1 = .ok (out2, st2) ∧ out2 ≠ error_json ∧
          report_fields out2 = some (row_usage rows_c nxt 0, core_usages rows_c nxt) :=
  ⟨Or.inr ⟨rfl, read_stat_a, read_stat_c⟩, by decide,
    get_cpu_usage_json_mismatch src_ac State.init rows_a rows_c
      (Or.inr ⟨rfl, read_stat_a, read_stat_c⟩) (by decide)⟩

/-- C7: whenever a call returns, with a report or with the error text, at least one read
was made, the stored baseline is the snapshot of the last read made during the call, and
`first_call` is cleared. Hence a call that follows and returns makes exactly one read and
compares the preceding call's last read with its own read: unless it returns the error text,
its report holds the usages between those two snapshots. -/
theorem get_cpu_usage_json_updates_baseline (src : ProcStat) (st : State) (out : List Piece)
    (st' : State) (h : get_cpu_usage_json src st = .ok (out, st')) :
    st'.first_call = false ∧ st.reads < st'.reads ∧
    read_cpu_stats (src (st'.reads - 1)) = .ok st'.prev_stats ∧
    ∀ out2 st2, get_cpu_usage_json src st' = .ok (out2, st2) →
      ∃ cur2, read_cpu_stats (src st'.reads) = .ok cur2 ∧ st2.reads = st'.reads + 1 ∧
        st2.prev_stats = cur2 ∧
        (out2 ≠ error_json →
          report_fields out2 =
            some (row_usage st'.prev_stats cur2 0, core_usages st'.prev_stats cur2)) := by
  obtain ⟨base, cur, hpath, _, hst⟩ := get_cpu_usage_json_inv src st out st' h
  have hflag : st'.first_call = false := by rw [hst]
  have hprev : st'.prev_stats = cur := by rw [hst]
  refine ⟨hflag, ?_, ?_, ?_⟩
  · rcases hpath with ⟨_, _, _, hr⟩ | ⟨_, _, _, hr⟩ <;> omega
  · rcases hpath with ⟨_, _, hread, hr⟩ | ⟨_, _, hread, hr⟩
    · rw [hr, hprev]; exact hread
    · rw [hr, hprev]; exact hread
  · intro out2 st2 h2
    obtain ⟨base2, cur2, hpath2, hout2, hst2⟩ := get_cpu_usage_json_inv src st' out2 st2 h2
    rcases hpath2 with ⟨_, hbase, hread, hr⟩ | ⟨hb, _⟩
    · refine ⟨cur2, hread, hr, by rw [hst2], ?_⟩
      intro hne
      subst hbase
      by_cases hbad : st'.prev_stats = [] ∨ cur2 = [] ∨ st'.prev_stats.length ≠ cur2.length
      · exact absurd (hout2.trans (compare_and_report_bad _ _ hbad)) hne
      · have hp : st'.prev_stats ≠ [] := fun hx => hbad (Or.inl hx)
        have hc : cur2 ≠ [] := fun hx => hbad (Or.inr (Or.inl hx))
        have hl : st'.prev_stats.length = cur2.length := by
          by_contra hx
          exact hbad (Or.inr (Or.inr hx))
        rw [hout2, compare_and_report_ok _ _ hp hc hl, report_fields_usage_report]
    · rw [hflag] at hb
      exact absurd hb (by decide)

/-- The first call on `stat_a` then `stat_b` returns, and what follows from that. -/
theorem get_cpu_usage_json_updates_baseline_witness :
    get_cpu_usage_json src_ab State.init =
      .ok (compare_and_report rows_a rows_b, ⟨rows_b, false, 2⟩) ∧
    ((⟨rows_b, false, 2⟩ : State).first_call = false ∧
      State.init.reads < (⟨rows_b, false, 2⟩ : State).reads ∧
      read_cpu_stats (src_ab ((⟨rows_b, false, 2⟩ : State).reads - 1)) =
        .ok (⟨rows_b, false, 2⟩ : State).prev_stats ∧
      ∀ out2 st2, get_cpu_usage_json src_ab ⟨rows_b, false, 2⟩ = .ok (out2, st2) →
        ∃ cur2, read_cpu_stats (src_ab (⟨rows_b, false, 2⟩ : State).reads) = .ok cur2 ∧
          st2.reads = (⟨rows_b, false, 2⟩ : State).reads + 1 ∧
          st2.prev_stats = cur2 ∧
          (out2 ≠ error_json →
            report_fields out2 =
              some (row_usage (⟨rows_b, false, 2⟩ : State).prev_stats cur2 0,
                core_usages (⟨rows_b, false, 2⟩ : State).prev_stats cur2))) :=
  ⟨get_cpu_usage_json_bootstrap src_ab State.init rows_a rows_b rfl read_stat_a read_stat_b,
    get_cpu_usage_json_updates_baseline src_ab State.init (compare_and_report rows_a rows_b)
      ⟨rows_b, false, 2⟩
      (get_cpu_usage_json_bootstrap src_ab State.init rows_a rows_b rfl read_stat_a read_stat_b)⟩

theorem get_cpu_usage_json_one_read (src : ProcStat) (st1 : State) (out : List Piece)
    (st2 : State) (hb : st1.first_call = false)
    (h : get_cpu_usage_json src st1 = .ok (out, st2)) :
    st2.reads = st1.reads + 1 ∧ st2.first_call = false := by
  obtain ⟨base, cur, hpath, _, hst⟩ := get_cpu_usage_json_inv src st1 out st2 h
  rcases hpath with ⟨_, _, _, hr⟩ | ⟨hb', _⟩
  · exact ⟨hr, by rw [hst]⟩
  · rw [hb] at hb'
    exact absurd hb' (by decide)

theorem run_calls_has_baseline (src : ProcStat) :
    ∀ (n : Nat) (st stn : State), st.first_call = false → run_calls src n st = .ok stn →
      stn.first_call = false ∧ stn.reads = st.reads + n := by
  intro n
  induction n with
  | zero =>
    intro st stn hb h
    simp only [run_calls, Except.ok.injEq] at h
    subst h
    exact ⟨hb, rfl⟩
  | succ n ih =>
    intro st stn hb h
    cases hcall : get_cpu_usage_json src st with
    | error e => simp [run_calls, hcall, bind, Except.bind] at h
    | ok r =>
      obtain ⟨out, st1⟩ := r
      have hrun : run_calls src n st1 = .ok stn := by
        simpa [run_calls, hcall, bind, Except.bind] using h
      obtain ⟨hr, hf⟩ := get_cpu_usage_json_one_read src st out st1 hb hcall
      obtain ⟨h1, h2⟩ := ih st1 stn hf hrun
      exact ⟨h1, by omega⟩

/-- C8: on a call made while `first_call` is set, the operation makes two reads `r1` then
`r2`, takes `r1` as baseline and `r2` as current reading and, when both are non-empty with
the same row count, returns a report, not the error text, whose percentages are the usages
from `r1` to `r2`; it leaves `first_call` cleared. Every call made with `first_call` cleared
makes exactly one read and leaves it cleared, so after the first call and `n` later calls
`n + 2` reads have been made. -/
theorem get_cpu_usage_json_first_call (src : ProcStat) (st : State) (r1 r2 : List CpuStats)
    (hb : st.first_call = true) (h1 : read_cpu_stats (src st.reads) = .ok r1)
    (h2 : read_cpu_stats (src (st.reads + 1)) = .ok r2)
    (hne1 : r1 ≠ []) (hne2 : r2 ≠ []) (hlen : r1.length = r2.length) :
    (∃ out st', get_cpu_usage_json src st = .ok (out, st') ∧ out ≠ error_json ∧
      report_fields out = some (row_usage r1 r2 0, core_usages r1 r2) ∧
      st'.reads = st.reads + 2 ∧ st'.first_call = false ∧ st'.prev_stats = r2) ∧
    (∀ st1 out st2, st1.first_call = false → get_cpu_usage_json src st1 = .ok (out, st2) →
      st2.reads = st1.reads + 1 ∧ st2.first_call = false) ∧
    (∀ n stn, run_calls src (n + 1) st = .ok stn →
      stn.first_call = false ∧ stn.reads = st.reads + 2 + n) := by
  have hcall := get_cpu_usage_json_bootstrap src st r1 r2 hb h1 h2
  refine ⟨⟨_, _, hcall, ?_, ?_, rfl, rfl, rfl⟩, ?_, ?_⟩
  · rw [compare_and_report_ok r1 r2 hne1 hne2 hlen]
    exact usage_report_ne_error_json r1 r2
  · rw [compare_and_report_ok r1 r2 hne1 hne2 hlen, report_fields_usage_report]
  · intro st1 out st2 hb1 hc
    exact get_cpu_usage_json_one_read src st1 out st2 hb1 hc
  · intro n stn hrun
    have hrun' : run_calls src n ⟨r2, false, st.reads + 2⟩ = .ok stn := by
      simpa [run_calls, hcall, bind, Except.bind] using hrun
    exact run_calls_has_baseline src n _ stn rfl hrun'

/-- The first call of a process that finds `stat_a` and then `stat_b`. -/
theorem get_cpu_usage_json_first_call_witness :
    State.init.first_call = true ∧ rows_a ≠ [] ∧ rows_b ≠ [] ∧
    rows_a.length = rows_b.length ∧
    ((∃ out st', get_cpu_usage_json src_ab State.init = .ok (out, st') ∧ out ≠ error_json ∧
      report_fields out = some (row_usage rows_a rows_b 0, core_usages rows_a rows_b) ∧
      st'.reads = State.init.reads + 2 ∧ st'.first_call = false ∧ st'.prev_stats = rows_b) ∧
    (∀ st1 out st2, st1.first_call = false →
      get_cpu_usage_json src_ab st1 = .ok (out, st2) →
      st2.reads = st1.reads + 1 ∧ st2.first_call = false) ∧
    (∀ n stn, run_calls src_ab (n + 1) State.init = .ok stn →
      stn.first_call = false ∧ stn.reads = State.init.reads + 2 + n)) :=
  ⟨rfl, by decide, by decide, by decide,
    get_cpu_usage_json_first_call src_ab State.init rows_a rows_b rfl read_stat_a read_stat_b
      (by decide) (by decide) (by decide)⟩

/-- C9, counterexample: a sampler with the baseline `rows_a` whose read fails (no rows)
returns the error text; the immediately following call reads the healthy, non-empty
`stat_a` and still returns the error text. -/
theorem self_heal_next_call_counterexample :
    read_cpu_stats (src_fail_ab 0) = .ok [] ∧
    get_cpu_usage_json src_fail_ab ⟨rows_a, false, 0⟩ = .ok (error_json, ⟨[], false, 1⟩) ∧
    read_cpu_stats (src_fail_ab 1) = .ok rows_a ∧ rows_a ≠ [] ∧
    get_cpu_usage_json src_fail_ab ⟨[], false, 1⟩ = .ok (error_json, ⟨rows_a, false, 2⟩) :=
  ⟨rfl, rfl, rfl, by decide, rfl⟩

/-- C9, amended: for every sampler state that already has a baseline, if a call's counter
read fails (yields zero rows), the call returns the error text and stores the empty
snapshot; the immediately following call, whose read is healthy (non-empty), returns the
error text again and stores its read as the baseline; the call after that returns a report,
not the error text, whenever its own read has the same row count. The sampler self-heals on
the second call after the failed read. -/
theorem get_cpu_usage_json_self_heals (src : ProcStat) (st : State) (c1 c2 : List CpuStats)
    (hb : st.first_call = false)
    (h0 : read_cpu_stats (src st.reads) = .ok [])
    (h1 : read_cpu_stats (src (st.reads + 1)) = .ok c1)
    (h2 : read_cpu_stats (src (st.reads + 2)) = .ok c2)
    (hne : c1 ≠ []) (hlen : c2.length = c1.length) :
    ∃ st1 st2 out3 st3,
      get_cpu_usage_json src st = .ok (error_json, st1) ∧ st1.prev_stats = [] ∧
      get_cpu_usage_json src st1 = .ok (error_json, st2) ∧ st2.prev_stats = c1 ∧
      get_cpu_usage_json src st2 = .ok (out3, st3) ∧ out3 ≠ error_json ∧
      report_fields out3 = some (row_usage c1 c2 0, core_usages c1 c2) := by
  have hc2 : c2 ≠ [] := by
    intro hc
    rw [hc] at hlen
    exact hne (List.length_eq_zero.mp hlen.symm)
  have e1 := get_cpu_usage_json_has_baseline src st [] hb h0
  rw [compare_and_report_bad st.prev_stats [] (Or.inr (Or.inl rfl))] at e1
  have e2 := get_cpu_usage_json_has_baseline src ⟨[], false, st.reads + 1⟩ c1 rfl h1
  rw [compare_and_report_bad [] c1 (Or.inl rfl)] at e2
  have e3 := get_cpu_usage_json_has_baseline src ⟨c1, false, st.reads + 1 + 1⟩ c2 rfl h2
  rw [compare_and_report_ok c1 c2 hne hc2 hlen.symm] at e3
  exact ⟨_, _, _, _, e1, rfl, e2, rfl, e3, usage_report_ne_error_json c1 c2,
    report_fields_usage_report c1 c2⟩

/-- A failed read, then `stat_a`, then `stat_b`. -/
theorem get_cpu_usage_json_self_heals_witness :
    read_cpu_stats (src_fail_ab 0) = .ok [] ∧ rows_a ≠ [] ∧
    ∃ st1 st2 out3 st3,
      get_cpu_usage_json src_fail_ab ⟨rows_a, false, 0⟩ = .ok (error_json, st1) ∧
      st1.prev_stats = [] ∧
      get_cpu_usage_json src_fail_ab st1 = .ok (error_json, st2) ∧ st2.prev_stats = rows_a ∧
      get_cpu_usage_json src_fail_ab st2 = .ok (out3, st3) ∧ out3 ≠ error_json ∧
      report_fields out3 = some (row_usage rows_a rows_b 0, core_usages rows_a rows_b) :=
  ⟨rfl, by decide,
    get_cpu_usage_json_self_heals src_fail_ab ⟨rows_a, false, 0⟩ rows_a rows_b rfl rfl
      read_stat_a read_stat_b (by decide) (by decide)⟩

/-- C10, the failing input: on a `/proc/stat` whose only line is `cpu`, `line.substr(5)`
throws `std::out_of_range`; the exception leaves `read_cpu_stats` and then
`get_cpu_usage_json`, on the first call and on a later call alike, instead of a report or
the error text being returned. -/
theorem read_cpu_stats_short_line_throws :
    read_cpu_stats "cpu" = .error .out_of_range ∧
    get_cpu_usage_json (fun _ => "cpu") State.init = .error .out_of_range ∧
    get_cpu_usage_json (fun _ => "cpu") ⟨rows_a, false, 1⟩ = .error .out_of_range :=
  ⟨rfl, rfl, rfl⟩

/-! ## Theorems: SpMV kernel, empty rows, bounds and frame -/

section SpmvFrame

variable {α : Type} [Zero α] [Add α] [Mul α]

theorem writeAt_eq_some {β : Type} (p : List β) (j : Nat) (v : β) (q : List β)
    (h : writeAt p (j : Int) v = some q) : j < p.length ∧ q = p.set j v := by
  unfold writeAt at h
  have : ¬ ((j : Int) < 0) := by omega
  simp only [this, if_false, Int.toNat_ofNat] at h
  by_cases hj : j < p.length
  · simp only [hj, if_true, Option.some.injEq] at h
    exact ⟨hj, h.symm⟩
  · simp [hj] at h

/-- What a normal end of the outer loop tells, whatever the arrays hold: the buffer keeps
its length, every entry outside `[i, i + n)` is as before, and the entry of each row inside
is the value that the inner loop computed for it. -/
theorem spmv_outer_inv (data : List α) (indices indptr : List Int) (vector : List α) :
    ∀ (n i : Nat) (result out : List α),
      spmv_outer data indices indptr vector n (i : Int) result = some out →
      out.length = result.length ∧
      (∀ k, k < i ∨ i + n ≤ k → out[k]? = result[k]?) ∧
      (∀ k, i ≤ k → k < i + n → ∃ lo hi s, readAt indptr (k : Int) = some lo ∧
        readAt indptr ((k : Int) + 1) = some hi ∧
        spmv_inner data indices vector (hi - lo).toNat lo 0 = some s ∧ out[k]? = some s) := by
  intro n
  induction n with
  | zero =>
    intro i result out h
    simp only [spmv_outer, Option.some.injEq] at h
    subst h
    exact ⟨rfl, fun _ _ => rfl, fun k h1 h2 => by omega⟩
  | succ n ih =>
    intro i result out h
    rw [spmv_outer] at h
    simp only [Option.bind_eq_bind, Option.bind_eq_some] at h
    obtain ⟨lo, hlo, hi, hhi, s, hs, r', hw, hrest⟩ := h
    obtain ⟨hires, hr'⟩ := writeAt_eq_some result i s r' hw
    have hnext : ((i : Int) + 1) = ((i + 1 : Nat) : Int) := by push_cast; rfl
    rw [hnext] at hrest
    obtain ⟨hlen, hframe, hrows⟩ := ih (i + 1) r' out hrest
    subst hr'
    refine ⟨by simpa using hlen, ?_, ?_⟩
    · intro k hk
      rw [hframe k (by omega), List.getElem?_set_ne (by omega)]
    · intro k hk1 hk2
      rcases Nat.eq_or_lt_of_le hk1 with heq | hlt
      · subst heq
        refine ⟨lo, hi, s, hlo, hhi, hs, ?_⟩
        rw [hframe i (by omega), List.getElem?_set_self hires]
      · exact hrows k (by omega) (by omega)

/-- Under the documented preconditions the call ends normally, keeps the buffer length and
stores the row sum of every row. -/
theorem spmv_csr_cpp_eq (values : List α) (column_indices row_pointers : List Int)
    (vector result : List α) (num_rows num_cols : Int)
    (h : csr_pre values column_indices row_pointers vector result num_rows num_cols) :
    ∃ out, spmv_csr_cpp values column_indices row_pointers vector result num_rows = some out ∧
      out.length = result.length ∧
      (∀ k, num_rows.toNat ≤ k → out[k]? = result[k]?) ∧
      ∀ i : Nat, (i : Int) < num_rows →
        out[i]? = some (row_sum values column_indices vector
          (row_ptr row_pointers i) (row_ptr row_pointers (i + 1))) := by
  have hrows := csr_pre_rows values column_indices row_pointers vector result num_rows num_cols h
  obtain ⟨h0, _, _, _, _, hlen, hcol, hvec, hres⟩ := h
  obtain ⟨out, hout, hl, hframe, hsum⟩ :=
    spmv_outer_eq values column_indices row_pointers vector num_cols num_rows.toNat hlen hcol
      hvec hrows num_rows.toNat 0 result (by omega) (by omega)
  exact ⟨out, hout, hl, fun k hk => hframe k (Or.inr (by omega)),
    fun i hi => hsum i (by omega) (by omega)⟩

/-- C13: for every row `i` in `[0, num_rows)` with `row_pointers[i] == row_pointers[i+1]`
(an empty row), a call that ends normally has stored `result[i] = 0`, whatever `values`,
`column_indices` and `vector` hold and whatever `result` held before; and on every CSR input
that meets the documented preconditions the call does end normally with `result[i] = 0`. -/
theorem spmv_csr_cpp_empty_row (values : List α) (column_indices row_pointers : List Int)
    (vector result : List α) (num_rows : Int) (i : Nat) (p : Int)
    (hi : (i : Int) < num_rows)
    (hlo : row_pointers[i]? = some p) (hhi : row_pointers[i + 1]? = some p) :
    (∀ out, spmv_csr_cpp values column_indices row_pointers vector result num_rows = some out →
      out[i]? = some 0) ∧
    (∀ num_cols,
      csr_pre values column_indices row_pointers vector result num_rows num_cols →
      ∃ out, spmv_csr_cpp values column_indices row_pointers vector result num_rows = some out ∧
        out[i]? = some 0) := by
  have key : ∀ out,
      spmv_csr_cpp values column_indices row_pointers vector result num_rows = some out →
      out[i]? = some 0 := by
    intro out hout
    obtain ⟨_, _, hrows⟩ :=
      spmv_outer_inv values column_indices row_pointers vector num_rows.toNat 0 result out hout
    obtain ⟨lo, hi', s, h1, h2, hs, ho⟩ := hrows i (by omega) (by omega)
    have hnext : ((i : Int) + 1) = ((i + 1 : Nat) : Int) := by push_cast; rfl
    rw [readAt_of_getElem? row_pointers i p hlo] at h1
    rw [hnext, readAt_of_getElem? row_pointers (i + 1) p hhi] at h2
    have e1 : lo = p := (Option.some.inj h1).symm
    have e2 : hi' = p := (Option.some.inj h2).symm
    subst e1 e2
    simp only [sub_self, Int.toNat_zero, spmv_inner, Option.some.injEq] at hs
    rw [ho, ← hs]
  refine ⟨key, ?_⟩
  intro num_cols hpre
  obtain ⟨out, hout, _⟩ :=
    spmv_csr_cpp_eq values column_indices row_pointers vector result num_rows num_cols hpre
  exact ⟨out, hout, key out hout⟩

/-- The matrix `[[0,0],[5,0]]` has an empty first row. -/
theorem spmv_csr_cpp_empty_row_witness :
    ((0 : Nat) : Int) < 2 ∧ ([0, 0, 1] : List Int)[0]? = some 0 ∧
    ([0, 0, 1] : List Int)[0 + 1]? = some 0 ∧
    ((∀ out, spmv_csr_cpp [(5 : Int)] [0] [0, 0, 1] [2, 3] [9, 9] 2 = some out →
      out[0]? = some 0) ∧
    (∀ num_cols, csr_pre [(5 : Int)] [0] [0, 0, 1] [2, 3] [9, 9] 2 num_cols →
      ∃ out, spmv_csr_cpp [(5 : Int)] [0] [0, 0, 1] [2, 3] [9, 9] 2 = some out ∧
        out[0]? = some 0)) ∧
    spmv_csr_cpp [(5 : Int)] [0] [0, 0, 1] [2, 3] [9, 9] 2 = some [0, 10] :=
  ⟨by decide, by decide, by decide,
    spmv_csr_cpp_empty_row [(5 : Int)] [0] [0, 0, 1] [2, 3] [9, 9] 2 0 0
      (by decide) (by decide) (by decide),
    by decide⟩

/-- C15: under the documented CSR preconditions (`num_rows ≥ 0`; `row_pointers` of length
`num_rows + 1`, non-decreasing, from `0` to `nnz`; `values` and `column_indices` of length
`nnz`; every column index in `[0, num_cols)`; `vector` of length at least `num_cols`;
`result` of length at least `num_rows`) every array access of the call is in bounds: the
bounds-checked call never takes its out-of-bounds branch `none`, it ends with a buffer. -/
theorem spmv_csr_cpp_in_bounds (values : List α) (column_indices row_pointers : List Int)
    (vector result : List α) (num_rows num_cols : Int)
    (h : csr_pre values column_indices row_pointers vector result num_rows num_cols) :
    spmv_csr_cpp values column_indices row_pointers vector result num_rows ≠ none ∧
    ∃ out, spmv_csr_cpp values column_indices row_pointers vector result num_rows = some out ∧
      out.length = result.length := by
  obtain ⟨out, hout, hl, _⟩ :=
    spmv_csr_cpp_eq values column_indices row_pointers vector result num_rows num_cols h
  exact ⟨by rw [hout]; exact Option.some_ne_none out, out, hout, hl⟩

/-- The matrix `[[1,0,2],[0,3,0]]` with a `result` buffer longer than needed. -/
theorem spmv_csr_cpp_in_bounds_witness :
    csr_pre [(1 : Int), 2, 3] [0, 2, 1] [0, 2, 3] [1, 1, 1] [7, 7, 7] 2 3 ∧
    (spmv_csr_cpp [(1 : Int), 2, 3] [0, 2, 1] [0, 2, 3] [1, 1, 1] [7, 7, 7] 2 ≠ none ∧
    ∃ out, spmv_csr_cpp [(1 : Int), 2, 3] [0, 2, 1] [0, 2, 3] [1, 1, 1] [7, 7, 7] 2 = some out ∧
      out.length = ([7, 7, 7] : List Int).length) :=
  ⟨by decide,
    spmv_csr_cpp_in_bounds [(1 : Int), 2, 3] [0, 2, 1] [0, 2, 3] [1, 1, 1] [7, 7, 7] 2 3
      (by decide)⟩

/-- C19: a call that ends normally has modified only `result[0 .. num_rows)`: the buffer
keeps its length and every element at an index `≥ num_rows` keeps its prior value; when
`num_rows ≤ 0` the call ends normally with the buffer entirely unchanged whatever the input
arrays are, even empty ones, so none of them is read. The input arrays are values that the
call only reads: its single store is `result[i] = sum`. -/
theorem spmv_csr_cpp_frame (values : List α) (column_indices row_pointers : List Int)
    (vector result : List α) (num_rows : Int) :
    (∀ out, spmv_csr_cpp values column_indices row_pointers vector result num_rows = some out →
      out.length = result.length ∧
      ∀ k : Nat, num_rows ≤ (k : Int) → out[k]? = result[k]?) ∧
    (num_rows ≤ 0 →
      spmv_csr_cpp values column_indices row_pointers vector result num_rows = some result ∧
      spmv_csr_cpp ([] : List α) [] [] [] result num_rows = some result) := by
  constructor
  · intro out hout
    obtain ⟨hl, hframe, _⟩ :=
      spmv_outer_inv values column_indices row_pointers vector num_rows.toNat 0 result out hout
    exact ⟨hl, fun k hk => hframe k (Or.inr (by omega))⟩
  · intro h
    have hz : num_rows.toNat = 0 := by omega
    simp [spmv_csr_cpp, hz, spmv_outer]

/-- A `result` buffer of three entries for a matrix of two rows, and a call with no row. -/
theorem spmv_csr_cpp_frame_witness :
    spmv_csr_cpp [(1 : Int), 2, 3] [0, 2, 1] [0, 2, 3] [1, 1, 1] [7, 8, 9] 2 = some [3, 3, 9] ∧
    (([3, 3, 9] : List Int).length = ([7, 8, 9] : List Int).length ∧
      ∀ k : Nat, (2 : Int) ≤ (k : Int) → ([3, 3, 9] : List Int)[k]? = ([7, 8, 9] : List Int)[k]?) ∧
    ((0 : Int) ≤ 0 ∧
      spmv_csr_cpp [(1 : Int), 2, 3] [0, 2, 1] [0, 2, 3] [1, 1, 1] [7, 8, 9] 0 = some [7, 8, 9] ∧
      spmv_csr_cpp ([] : List Int) [] [] [] [7, 8, 9] 0 = some [7, 8, 9]) :=
  ⟨by decide,
    (spmv_csr_cpp_frame [(1 : Int), 2, 3] [0, 2, 1] [0, 2, 3] [1, 1, 1] [7, 8, 9] 2).1
      [3, 3, 9] (by decide),
    le_refl 0,
    (spmv_csr_cpp_frame [(1 : Int), 2, 3] [0, 2, 1] [0, 2, 3] [1, 1, 1] [7, 8, 9] 0).2
      (le_refl 0)⟩

/-- The order of the operations on a row of three entries, for any arithmetic: the result
is `((0 + a * x) + b * y) + c * z`. -/
theorem spmv_csr_cpp_three_terms (a b c x y z r : α) :
    spmv_csr_cpp [a, b, c] [0, 1, 2] [0, 3] [x, y, z] [r] 1 =
      some [((0 + a * x) + b * y) + c * z] := by
  rfl

end SpmvFrame

/-! ## Theorems: CPU-utilisation sampler, errors, text and bounds -/

theorem read_stat_bad_a : read_cpu_stats stat_bad_a = .ok rows_bad_a := rfl

theorem read_stat_bad_b : read_cpu_stats stat_bad_b = .ok rows_bad_b := rfl

/-- C18: in exact arithmetic, for every previous and current counter row in which each of
the eight counters is non-negative and non-decreasing from previous to current and
`total_delta > 0`, the usage percentage computed by the sampler lies in `[0, 100]` and
equals `100 * (busy_delta / total_delta)`, where `busy_delta` is the summed increase of
`user`, `nice`, `system`, `irq`, `softirq` and `steal`. -/
theorem usage_eq_busy_fraction (prev cur : CpuStats)
    (_hprev : prev.nonneg) (_hcur : cur.nonneg) (hmono : prev.mono cur)
    (hpos : 0 < total_delta prev cur) :
    0 ≤ usage prev cur ∧ usage prev cur ≤ 100 ∧
      usage prev cur = 100 * (busy_delta prev cur / total_delta prev cur) := by
  obtain ⟨h1, h2, h3, h4, h5, h6, h7, h8⟩ := hmono
  have hb0 : 0 ≤ busy_delta prev cur := by
    unfold busy_delta
    have a1 : (0 : Int) ≤ cur.user - prev.user := by omega
    have a2 : (0 : Int) ≤ cur.nice - prev.nice := by omega
    have a3 : (0 : Int) ≤ cur.system - prev.system := by omega
    have a6 : (0 : Int) ≤ cur.irq - prev.irq := by omega
    have a7 : (0 : Int) ≤ cur.softirq - prev.softirq := by omega
    have a8 : (0 : Int) ≤ cur.steal - prev.steal := by omega
    have b1 : (0 : ℚ) ≤ ((cur.user - prev.user : Int) : ℚ) := by exact_mod_cast a1
    have b2 : (0 : ℚ) ≤ ((cur.nice - prev.nice : Int) : ℚ) := by exact_mod_cast a2
    have b3 : (0 : ℚ) ≤ ((cur.system - prev.system : Int) : ℚ) := by exact_mod_cast a3
    have b6 : (0 : ℚ) ≤ ((cur.irq - prev.irq : Int) : ℚ) := by exact_mod_cast a6
    have b7 : (0 : ℚ) ≤ ((cur.softirq - prev.softirq : Int) : ℚ) := by exact_mod_cast a7
    have b8 : (0 : ℚ) ≤ ((cur.steal - prev.steal : Int) : ℚ) := by exact_mod_cast a8
    linarith
  have hidle : (0 : ℚ) ≤ ((cur.get_idle_time - prev.get_idle_time : Int) : ℚ) := by
    have : (0 : Int) ≤ cur.get_idle_time - prev.get_idle_time := by
      unfold CpuStats.get_idle_time; omega
    exact_mod_cast this
  have hsplit : total_delta prev cur =
      busy_delta prev cur + ((cur.get_idle_time - prev.get_idle_time : Int) : ℚ) := by
    unfold total_delta busy_delta CpuStats.get_total_time CpuStats.get_idle_time
    push_cast
    ring
  have heq : usage prev cur = 100 * (busy_delta prev cur / total_delta prev cur) := by
    have hne : total_delta prev cur ≠ 0 := ne_of_gt hpos
    have hpos' : (0 : ℚ) < ((cur.get_total_time - prev.get_total_time : Int) : ℚ) := hpos
    have hu : usage prev cur =
        (1 - ((cur.get_idle_time - prev.get_idle_time : Int) : ℚ) / total_delta prev cur) *
          100 := by
      unfold usage
      simp only [gt_iff_lt, if_pos hpos']
      rfl
    generalize ((cur.get_idle_time - prev.get_idle_time : Int) : ℚ) = I at hu hsplit
    have hB : busy_delta prev cur = total_delta prev cur - I := by linarith
    rw [hu, hB]
    field_simp
    ring
  have hfrac0 : 0 ≤ busy_delta prev cur / total_delta prev cur := div_nonneg hb0 hpos.le
  have hfrac1 : busy_delta prev cur / total_delta prev cur ≤ 1 :=
    (div_le_one hpos).mpr (by rw [hsplit]; linarith)
  refine ⟨?_, ?_, heq⟩
  · rw [heq]; nlinarith
  · rw [heq]; nlinarith

/-- From `rows_a` to `rows_b` the aggregate row gains 10 busy and 10 idle ticks. -/
theorem usage_eq_busy_fraction_witness :
    (⟨10, 20, 30, 40, 50, 60, 70, 80⟩ : CpuStats).mono ⟨20, 20, 30, 50, 50, 60, 70, 80⟩ ∧
    (0 ≤ usage ⟨10, 20, 30, 40, 50, 60, 70, 80⟩ ⟨20, 20, 30, 50, 50, 60, 70, 80⟩ ∧
      usage ⟨10, 20, 30, 40, 50, 60, 70, 80⟩ ⟨20, 20, 30, 50, 50, 60, 70, 80⟩ ≤ 100 ∧
      usage ⟨10, 20, 30, 40, 50, 60, 70, 80⟩ ⟨20, 20, 30, 50, 50, 60, 70, 80⟩ =
        100 * (busy_delta ⟨10, 20, 30, 40, 50, 60, 70, 80⟩ ⟨20, 20, 30, 50, 50, 60, 70, 80⟩ /
          total_delta ⟨10, 20, 30, 40, 50, 60, 70, 80⟩ ⟨20, 20, 30, 50, 50, 60, 70, 80⟩)) :=
  ⟨by decide,
    usage_eq_busy_fraction ⟨10, 20, 30, 40, 50, 60, 70, 80⟩ ⟨20, 20, 30, 50, 50, 60, 70, 80⟩
      (by decide) (by decide) (by decide)
      (by norm_num [total_delta, CpuStats.get_total_time])⟩

theorem core_loop_texts (prev cur : List CpuStats) (n i : Nat) (t : String)
    (h : Piece.text t ∈ core_loop prev cur n i []) : t = "" ∨ t = "," := by
  induction n generalizing i with
  | zero => simp [core_loop] at h
  | succ n ih =>
    rw [core_loop, core_loop_append] at h
    simp only [List.nil_append, List.mem_append, List.mem_cons, Piece.text.injEq,
      List.mem_singleton, List.not_mem_nil, or_false, false_or] at h
    rcases h with h | h
    · by_cases hi : i = cur.length - 1
      · left; simpa [hi] using h
      · right; simpa [hi] using h
    · exact ih (i + 1) h

theorem usage_report_texts (prev cur : List CpuStats) (t : String)
    (h : Piece.text t ∈ usage_report prev cur) : t ∈ report_texts := by
  unfold usage_report at h
  simp only [] at h
  rw [core_loop_append] at h
  simp only [List.mem_append, List.mem_cons, Piece.text.injEq, List.mem_singleton,
    List.not_mem_nil, or_false, false_or] at h
  rcases h with ((h | h | h | h | h) | h) | h
  · simp [report_texts, h]
  · simp [report_texts, h]
  · exact Piece.noConfusion h
  · simp [report_texts, h]
  · simp [report_texts, h]
  · rcases core_loop_texts prev cur _ _ t h with h' | h' <;> simp [report_texts, h']
  · simp [report_texts, h]

theorem compare_and_report_eq_error_iff (base cur : List CpuStats) :
    compare_and_report base cur = error_json ↔
      (base = [] ∨ cur = [] ∨ base.length ≠ cur.length) := by
  constructor
  · intro h
    by_contra hbad
    have hp : base ≠ [] := fun hx => hbad (Or.inl hx)
    have hc : cur ≠ [] := fun hx => hbad (Or.inr (Or.inl hx))
    have hl : base.length = cur.length := by
      by_contra hx
      exact hbad (Or.inr (Or.inr hx))
    rw [compare_and_report_ok base cur hp hc hl] at h
    exact usage_report_ne_error_json base cur h
  · exact compare_and_report_bad base cur

/-- C16: a call that compares the baseline in effect `base` (the stored baseline, or the
first read on the first call) with the current read `cur` returns the error text if and
only if `base` is empty, or `cur` is empty, or the two have different row counts; in every
other case it returns a report with `total_usage` and `per_core_usage`, whose literal texts
are the braces, the brackets, these two field names and the separators: no `error` field. -/
theorem get_cpu_usage_json_error_iff (src : ProcStat) (st : State) (base cur : List CpuStats)
    (h : Compares src st base cur) :
    ∃ out st', get_cpu_usage_json src st = .ok (out, st') ∧
      (out = error_json ↔ (base = [] ∨ cur = [] ∨ base.length ≠ cur.length)) ∧
      (out ≠ error_json →
        report_fields out = some (row_usage base cur 0, core_usages base cur) ∧
        ∀ t, Piece.text t ∈ out → t ∈ report_texts) := by
  refine ⟨_, _, get_cpu_usage_json_of_compares src st base cur h,
    compare_and_report_eq_error_iff base cur, ?_⟩
  intro hne
  have hgood : ¬ (base = [] ∨ cur = [] ∨ base.length ≠ cur.length) :=
    fun hbad => hne (compare_and_report_bad base cur hbad)
  have hp : base ≠ [] := fun hx => hgood (Or.inl hx)
  have hc : cur ≠ [] := fun hx => hgood (Or.inr (Or.inl hx))
  have hl : base.length = cur.length := by
    by_contra hx
    exact hgood (Or.inr (Or.inr hx))
  rw [compare_and_report_ok base cur hp hc hl]
  exact ⟨report_fields_usage_report base cur, usage_report_texts base cur⟩

/-- A second core comes online between the two reads of the first call: an error; the call
after it compares two reads of three rows: a report. -/
theorem get_cpu_usage_json_error_iff_witness :
    Compares src_ac State.init rows_a rows_c ∧
    ∃ out st', get_cpu_usage_json src_ac State.init = .ok (out, st') ∧
      (out = error_json ↔ (rows_a = [] ∨ rows_c = [] ∨ rows_a.length ≠ rows_c.length)) ∧
      (out ≠ error_json →
        report_fields out = some (row_usage rows_a rows_c 0, core_usages rows_a rows_c) ∧
        ∀ t, Piece.text t ∈ out → t ∈ report_texts) :=
  ⟨Or.inr ⟨rfl, read_stat_a, read_stat_c⟩,
    get_cpu_usage_json_error_iff src_ac State.init rows_a rows_c
      (Or.inr ⟨rfl, read_stat_a, read_stat_c⟩)⟩

theorem render_text_append (fmt : ℚ → String) (ps qs : List Piece) :
    render_text fmt (ps ++ qs) = render_text fmt ps ++ render_text fmt qs := by
  induction ps with
  | nil => simp [render_text]
  | cons p ps ih => cases p <;> simp [render_text, ih, String.append_assoc]

theorem render_core_loop (fmt : ℚ → String) (prev cur : List CpuStats) :
    ∀ (n i : Nat), 0 < i → i + n = cur.length →
      render_text fmt (core_loop prev cur n i []) =
        comma_separated ((List.range n).map (fun k => fmt (row_usage prev cur (i + k)))) := by
  intro n
  induction n with
  | zero => intro i _ _; simp [core_loop, render_text, comma_separated]
  | succ n ih =>
    intro i hi hlen
    rw [core_loop, core_loop_append, render_text_append, ih (i + 1) (by omega) (by omega),
      List.range_succ_eq_map]
    cases n with
    | zero =>
      have hlast : i = cur.length - 1 := by omega
      simp [render_text, comma_separated, hlast, row_usage]
    | succ m =>
      have hlast : ¬ i = cur.length - 1 := by omega
      simp only [List.nil_append, render_text, if_neg hlast, List.map_cons, List.map_map,
        List.range_succ_eq_map, comma_separated, String.append_empty, row_usage,
        Nat.add_zero, String.append_assoc]
      congr 2
      simp [Function.comp_def, Nat.add_assoc, Nat.add_comm 1]

theorem render_usage_report (fmt : ℚ → String) (prev cur : List CpuStats) (hc : cur ≠ []) :
    render_text fmt (usage_report prev cur) =
      "\x7b\"total_usage\": " ++ fmt (row_usage prev cur 0) ++ ",\"per_core_usage\": [" ++
        comma_separated ((core_usages prev cur).map fmt) ++ "]\x7d" := by
  have hpos : 0 < cur.length := List.length_pos.mpr hc
  have hcore := render_core_loop fmt prev cur (cur.length - 1) 1 (by omega) (by omega)
  have e1 : ("\x7b" : String) ++ "\"total_usage\": " = "\x7b\"total_usage\": " := by decide
  have e2 : ("," : String) ++ "\"per_core_usage\": [" = ",\"per_core_usage\": [" := by decide
  unfold usage_report
  simp only []
  rw [core_loop_append, render_text_append, render_text_append, hcore]
  simp only [render_text, String.append_empty, core_usages, List.map_map, row_usage]
  rw [← e1, ← e2]
  simp only [String.append_assoc]
  congr 5
  simp [Function.comp_def, Nat.add_comm]

/-- C17: the text returned for a successful sample with `N ≥ 0` per-core rows is exactly
`{"total_usage": T,"per_core_usage": [c1,c2,...,cN]}`, where `T` and `c1 .. cN` are the
renderings of the aggregate and per-core percentages in row order, with exactly one comma
between consecutive elements and none after the last; `N = 0` gives the empty array `[]`.
The text returned for the error result is exactly `{"error": "Reading CPU stats"}`. -/
theorem get_cpu_usage_json_text (fmt : ℚ → String) (src : ProcStat) (st : State)
    (base cur : List CpuStats) (h : Compares src st base cur) :
    ∃ out st', get_cpu_usage_json src st = .ok (out, st') ∧
      (base ≠ [] → cur ≠ [] → base.length = cur.length →
        render_text fmt out =
          "\x7b\"total_usage\": " ++ fmt (row_usage base cur 0) ++ ",\"per_core_usage\": [" ++
            comma_separated ((core_usages base cur).map fmt) ++ "]\x7d" ∧
        (core_usages base cur).length = cur.length - 1 ∧
        (cur.length = 1 →
          render_text fmt out =
            "\x7b\"total_usage\": " ++ fmt (row_usage base cur 0) ++
              ",\"per_core_usage\": []\x7d")) ∧
      ((base = [] ∨ cur = [] ∨ base.length ≠ cur.length) →
        render_text fmt out = "\x7b\"error\": \"Reading CPU stats\"\x7d") := by
  refine ⟨_, _, get_cpu_usage_json_of_compares src st base cur h, ?_, ?_⟩
  · intro hp hc hlen
    rw [compare_and_report_ok base cur hp hc hlen]
    have hmain := render_usage_report fmt base cur hc
    refine ⟨hmain, by simp [core_usages], ?_⟩
    intro h1
    have e3 : (",\"per_core_usage\": [" : String) ++ "]\x7d" = ",\"per_core_usage\": []\x7d" := by
      decide
    rw [hmain, ← e3]
    simp [core_usages, h1, comma_separated, String.append_assoc]
  · intro hbad
    rw [compare_and_report_bad base cur hbad]
    simp [error_json, render_text]

/-- The first call on `stat_a` then `stat_b`, with any rendering of the numbers. -/
theorem get_cpu_usage_json_text_witness :
    Compares src_ab State.init rows_a rows_b ∧
    ∃ out st', get_cpu_usage_json src_ab State.init = .ok (out, st') ∧
      (rows_a ≠ [] → rows_b ≠ [] → rows_a.length = rows_b.length →
        render_text (fun _ => "?") out =
          "\x7b\"total_usage\": " ++ (fun _ => "?") (row_usage rows_a rows_b 0) ++
            ",\"per_core_usage\": [" ++
            comma_separated ((core_usages rows_a rows_b).map (fun _ => "?")) ++ "]\x7d" ∧
        (core_usages rows_a rows_b).length = rows_b.length - 1 ∧
        (rows_b.length = 1 →
          render_text (fun _ => "?") out =
            "\x7b\"total_usage\": " ++ (fun _ => "?") (row_usage rows_a rows_b 0) ++
              ",\"per_core_usage\": []\x7d")) ∧
      ((rows_a = [] ∨ rows_b = [] ∨ rows_a.length ≠ rows_b.length) →
        render_text (fun _ => "?") out = "\x7b\"error\": \"Reading CPU stats\"\x7d") :=
  ⟨Or.inr ⟨rfl, read_stat_a, read_stat_b⟩,
    get_cpu_usage_json_text (fun _ => "?") src_ab State.init rows_a rows_b
      (Or.inr ⟨rfl, read_stat_a, read_stat_b⟩)⟩

/-! ## Theorems: reading the counter source -/

theorem read_loop_eq (lines : List (List Char)) :
    ∀ stats : List CpuStats,
      (∀ line ∈ lines, is_cpu_line line = true → 5 ≤ line.length) →
      read_loop lines stats =
        .ok (stats ++ (lines.filter is_cpu_line).map
          (fun line => extract_stats ⟨line.drop 5, true⟩)) := by
  induction lines with
  | nil => intro stats _; simp [read_loop]
  | cons line rest ih =>
    intro stats hlong
    have hrest : ∀ l ∈ rest, is_cpu_line l = true → 5 ≤ l.length :=
      fun l hl => hlong l (List.mem_cons_of_mem line hl)
    have hsub : substr line 0 3 = .ok (line.take 3) := by simp [substr]
    by_cases hcpu : line.take 3 = ['c', 'p', 'u']
    · have hc : is_cpu_line line = true := by simp [is_cpu_line, hcpu]
      have h5 : ¬ 5 > line.length := by
        have := hlong line (List.mem_cons_self line rest) hc
        omega
      rw [read_loop, hsub]
      simp only [bind, Except.bind, hcpu, if_true, substr_from, h5, if_false]
      rw [ih _ hrest, List.filter_cons, hc]
      simp
    · have hc : is_cpu_line line = false := by simp [is_cpu_line, hcpu]
      rw [read_loop, hsub]
      simp only [bind, Except.bind, hcpu, if_false]
      rw [ih _ hrest, List.filter_cons, hc]
      simp

theorem read_cpu_stats_eq_cpu_rows (text : String) (h : cpu_lines_long text) :
    read_cpu_stats text = .ok (cpu_rows text) := by
  unfold read_cpu_stats cpu_rows
  rw [read_loop_eq _ [] h]
  simp

theorem extract_ll_not_good (ss : IStream) (v : Int) (h : ss.good = false) :
    extract_ll ss v = (v, ss) := by
  simp [extract_ll, h]

theorem stream_after_stable (ss : IStream) (k : Nat) (h : (stream_after k ss).good = false) :
    ∀ m, stream_after (k + m) ss = stream_after k ss := by
  intro m
  induction m with
  | zero => rfl
  | succ m ih =>
    have : stream_after (k + (m + 1)) ss = (extract_ll (stream_after (k + m) ss) 0).2 := rfl
    rw [this, ih, extract_ll_not_good _ _ h]

theorem extract_stats_fields (ss : IStream) :
    (extract_stats ss).fields =
      (List.range 8).map (fun j => (extract_ll (stream_after j ss) 0).1) := rfl

theorem extract_ll_no_number (ss : IStream) (hg : ss.good = true)
    (h : no_number_ahead ss = true) :
    (extract_ll ss 0).1 = 0 ∧ (extract_ll ss 0).2.good = false := by
  unfold no_number_ahead at h
  unfold extract_ll
  cases hb : ss.buf.dropWhile isspace with
  | nil => simp [hg]
  | cons c rest =>
    rw [hb] at h
    simp only [Bool.and_eq_true, Bool.not_eq_true', bne_iff_ne, ne_eq] at h
    obtain ⟨⟨hd, hm⟩, hp⟩ := h
    have hsplit : (match c :: rest with
        | '-' :: t => (true, t)
        | '+' :: t => (false, t)
        | _ => ((false, c :: rest) : Bool × List Char)) = (false, c :: rest) := by
      split
      · rename_i heq; exact absurd (List.cons.inj heq).1 hm
      · rename_i heq; exact absurd (List.cons.inj heq).1 hp
      · rfl
    simp only [hg, Bool.not_true, Bool.false_eq_true, if_false, List.isEmpty_cons, hsplit,
      List.takeWhile_cons, hd, List.isEmpty_nil, if_true]
    exact ⟨trivial, trivial⟩

/-- Once the stream of a line is not good after `k` extractions, or no number is ahead
for the next one, the counters with index `k` and above stay `0`. -/
theorem extract_stats_zero_from (ss : IStream) (k : Nat)
    (h : (stream_after k ss).good = false ∨ no_number_ahead (stream_after k ss) = true) :
    ∀ j, k ≤ j → j < 8 → (extract_stats ss).fields.getD j 0 = 0 := by
  have hbad : ∀ k', (stream_after k' ss).good = false →
      ∀ j, k' ≤ j → j < 8 → (extract_stats ss).fields.getD j 0 = 0 := by
    intro k' hk' j hkj hj
    have hst : stream_after j ss = stream_after k' ss := by
      have := stream_after_stable ss k' hk' (j - k')
      rwa [Nat.add_sub_cancel' hkj] at this
    rw [extract_stats_fields]
    simp only [List.getD_eq_getElem?_getD, List.getElem?_map, List.getElem?_range hj,
      Option.map_some', Option.getD_some]
    rw [hst, extract_ll_not_good _ _ hk']
  intro j hkj hj
  by_cases hg : (stream_after k ss).good = false
  · exact hbad k hg j hkj hj
  · have hg' : (stream_after k ss).good = true := by simpa using hg
    have hno : no_number_ahead (stream_after k ss) = true := by
      rcases h with h | h
      · exact absurd h hg
      · exact h
    obtain ⟨hv, hs⟩ := extract_ll_no_number _ hg' hno
    rcases Nat.eq_or_lt_of_le hkj with heq | hlt
    · subst heq
      rw [extract_stats_fields]
      simp only [List.getD_eq_getElem?_getD, List.getElem?_map, List.getElem?_range hj,
        Option.map_some', Option.getD_some]
      exact hv
    · exact hbad (k + 1) hs j (by omega) hj

/-- C11, the failing input: the line `cpu100 1 2 3 4 5 6 7 8` has the label `cpu100` and
the eight integers `1 .. 8`, but `line.substr(5)` starts inside the label, at its last
digit, so the snapshot is `0 1 2 3 4 5 6 7`: every counter is shifted by one place and
`8` is lost. The same line with the two-digit label `cpu10` is read as `1 .. 8`. -/
theorem read_cpu_stats_three_digit_label :
    read_cpu_stats "cpu100 1 2 3 4 5 6 7 8\n" = .ok [⟨0, 1, 2, 3, 4, 5, 6, 7⟩] ∧
    read_cpu_stats "cpu10 1 2 3 4 5 6 7 8\n" = .ok [⟨1, 2, 3, 4, 5, 6, 7, 8⟩] :=
  ⟨rfl, rfl⟩

end APU
